import Mathlib

/-!
Verification of the computational-geometry core of the Airplane repository
(`src/graphics_algorithms.py`): Bresenham line rasterization, midpoint
circle/ellipse rasterization (stroke and filled), scanline polygon fill,
homogeneous 2D transforms, Cohen-Sutherland line clipping and
Sutherland-Hodgman polygon clipping.

Python integers are modelled by `ℤ`, Python floats by `ℚ` (exact
arithmetic; every float computation in scope is a field operation on
rationals) and by `ℝ` for the transcendental transform entries.
Python `while` loops are modelled by structural recursion on an explicit
fuel argument chosen at each call site to dominate the loop's iteration
count, or by bounded iteration where the trip count is explicit in the
code.  `list(set(...))` is modelled by `List.dedup`, and Python `int()`
truncation toward zero by `Int.tdiv` on a rational's numerator and
denominator.
-/

/-! ### Bresenham's line algorithm (`bresenham_line`, lines 13-49) -/

/-- One iteration of the x-dominant loop body: the state is `(x, y, p)`;
Python does `if p >= 0: y += sy; p -= 2*dx` then `p += 2*dy; x += sx`. -/
def bstepX (dx dy sx sy : ℤ) (s : ℤ × ℤ × ℤ) : ℤ × ℤ × ℤ :=
  if 0 ≤ s.2.2 then (s.1 + sx, s.2.1 + sy, s.2.2 + 2 * dy - 2 * dx)
  else (s.1 + sx, s.2.1, s.2.2 + 2 * dy)

/-- One iteration of the y-dominant loop body. -/
def bstepY (dx dy sx sy : ℤ) (s : ℤ × ℤ × ℤ) : ℤ × ℤ × ℤ :=
  if 0 ≤ s.2.2 then (s.1 + sx, s.2.1 + sy, s.2.2 + 2 * dx - 2 * dy)
  else (s.1, s.2.1 + sy, s.2.2 + 2 * dx)

/-- The x-dominant branch: emit the current point, step, repeat `n` times
(the Python `for _ in range(dx + 1)` loop). -/
def bresLoopX (dx dy sx sy : ℤ) : ℕ → ℤ × ℤ × ℤ → List (ℤ × ℤ)
  | 0, _ => []
  | n + 1, s => (s.1, s.2.1) :: bresLoopX dx dy sx sy n (bstepX dx dy sx sy s)

/-- The y-dominant branch (the Python `for _ in range(dy + 1)` loop). -/
def bresLoopY (dx dy sx sy : ℤ) : ℕ → ℤ × ℤ × ℤ → List (ℤ × ℤ)
  | 0, _ => []
  | n + 1, s => (s.1, s.2.1) :: bresLoopY dx dy sx sy n (bstepY dx dy sx sy s)

/-- `bresenham_line(x1, y1, x2, y2)` from `graphics_algorithms.py`. -/
def bresenham_line (x1 y1 x2 y2 : ℤ) : List (ℤ × ℤ) :=
  let dx := |x2 - x1|
  let dy := |y2 - y1|
  let sx : ℤ := if x1 < x2 then 1 else -1
  let sy : ℤ := if y1 < y2 then 1 else -1
  if dy < dx then bresLoopX dx dy sx sy (dx.toNat + 1) (x1, y1, 2 * dy - dx)
  else bresLoopY dx dy sx sy (dy.toNat + 1) (x1, y1, 2 * dx - dy)

lemma bresLoopX_length (dx dy sx sy : ℤ) (n : ℕ) (s : ℤ × ℤ × ℤ) :
    (bresLoopX dx dy sx sy n s).length = n := by
  induction n generalizing s with
  | zero => rfl
  | succ n ih => simp [bresLoopX, ih]

lemma bresLoopY_length (dx dy sx sy : ℤ) (n : ℕ) (s : ℤ × ℤ × ℤ) :
    (bresLoopY dx dy sx sy n s).length = n := by
  induction n generalizing s with
  | zero => rfl
  | succ n ih => simp [bresLoopY, ih]

lemma bresLoopX_head (dx dy sx sy : ℤ) (n : ℕ) (s : ℤ × ℤ × ℤ) :
    (bresLoopX dx dy sx sy (n + 1) s).head? = some (s.1, s.2.1) := rfl

lemma bresLoopY_head (dx dy sx sy : ℤ) (n : ℕ) (s : ℤ × ℤ × ℤ) :
    (bresLoopY dx dy sx sy (n + 1) s).head? = some (s.1, s.2.1) := rfl

lemma bresLoopX_getLast (dx dy sx sy : ℤ) (n : ℕ) (s : ℤ × ℤ × ℤ) :
    (bresLoopX dx dy sx sy (n + 1) s).getLast? =
      some (((bstepX dx dy sx sy)^[n] s).1, ((bstepX dx dy sx sy)^[n] s).2.1) := by
  induction n generalizing s with
  | zero => rfl
  | succ n ih =>
      rw [show bresLoopX dx dy sx sy (n + 1 + 1) s
            = (s.1, s.2.1) :: bresLoopX dx dy sx sy (n + 1) (bstepX dx dy sx sy s) from rfl]
      rw [show bresLoopX dx dy sx sy (n + 1) (bstepX dx dy sx sy s)
            = ((bstepX dx dy sx sy s).1, (bstepX dx dy sx sy s).2.1)
              :: bresLoopX dx dy sx sy n (bstepX dx dy sx sy (bstepX dx dy sx sy s)) from rfl]
      rw [List.getLast?_cons_cons]
      rw [← show bresLoopX dx dy sx sy (n + 1) (bstepX dx dy sx sy s)
            = ((bstepX dx dy sx sy s).1, (bstepX dx dy sx sy s).2.1)
              :: bresLoopX dx dy sx sy n (bstepX dx dy sx sy (bstepX dx dy sx sy s)) from rfl]
      rw [ih (bstepX dx dy sx sy s)]
      rw [← Function.iterate_succ_apply]

lemma bresLoopY_eq_swap (dx dy sx sy : ℤ) (n : ℕ) (x y p : ℤ) :
    bresLoopY dx dy sx sy n (x, y, p)
      = (bresLoopX dy dx sy sx n (y, x, p)).map Prod.swap := by
  induction n generalizing x y p with
  | zero => rfl
  | succ n ih =>
      show (x, y) :: bresLoopY dx dy sx sy n (bstepY dx dy sx sy (x, y, p)) = _
      have hs : bstepY dx dy sx sy (x, y, p)
          = (let t := bstepX dy dx sy sx (y, x, p); (t.2.1, t.1, t.2.2)) := by
        simp only [bstepY, bstepX]
        split <;> rfl
      rw [hs]
      simp only [List.map]
      rw [ih]
      rfl

/-- The loop invariant of the x-dominant branch: after `k` iterations the
state is `(x1 + k·sx, y1 + m·sy, p)` for some `0 ≤ m` with
`p = 2(k+1)·dy - (2m+1)·dx` and `2dy - 2dx ≤ p ≤ 2dy - 1`. -/
lemma bstepX_iterate (dx dy sx sy : ℤ) (hdx : 1 ≤ dx) (hdy0 : 0 ≤ dy) (hdydx : dy ≤ dx)
    (x1 y1 : ℤ) (k : ℕ) :
    ∃ m : ℤ, 0 ≤ m ∧
      (bstepX dx dy sx sy)^[k] (x1, y1, 2 * dy - dx)
        = (x1 + k * sx, y1 + m * sy, 2 * (k + 1) * dy - (2 * m + 1) * dx) ∧
      2 * dy - 2 * dx ≤ 2 * (k + 1) * dy - (2 * m + 1) * dx ∧
      2 * (k + 1) * dy - (2 * m + 1) * dx ≤ 2 * dy - 1 := by
  induction k with
  | zero =>
      refine ⟨0, le_refl 0, ?_, by push_cast; linarith, by push_cast; linarith⟩
      simp only [Function.iterate_zero, id_eq, Nat.cast_zero, Prod.mk.injEq]
      refine ⟨by ring, by ring, by ring⟩
  | succ k ih =>
      obtain ⟨m, hm0, hst, hlow, hhigh⟩ := ih
      rw [Function.iterate_succ_apply', hst]
      by_cases hp : 0 ≤ 2 * (↑k + 1) * dy - (2 * m + 1) * dx
      · refine ⟨m + 1, by linarith, ?_, by push_cast; linarith, by push_cast; linarith⟩
        simp only [bstepX, if_pos hp, Prod.mk.injEq]
        push_cast
        refine ⟨by ring, by ring, by ring⟩
      · refine ⟨m, hm0, ?_, by push_cast; linarith, by push_cast; linarith⟩
        simp only [bstepX, if_neg hp, Prod.mk.injEq]
        push_cast
        refine ⟨by ring, by ring, by ring⟩

/-- At the end of the x-dominant loop (`k = dx`), the minor axis has been
stepped exactly `dy` times. -/
lemma bstepX_iterate_last (dx dy sx sy : ℤ) (hdx : 1 ≤ dx) (hdy0 : 0 ≤ dy) (hdydx : dy ≤ dx)
    (x1 y1 : ℤ) :
    ∃ p : ℤ, (bstepX dx dy sx sy)^[dx.toNat] (x1, y1, 2 * dy - dx)
        = (x1 + dx * sx, y1 + dy * sy, p) := by
  obtain ⟨m, hm0, hst, hlow, hhigh⟩ :=
    bstepX_iterate dx dy sx sy hdx hdy0 hdydx x1 y1 dx.toNat
  have hcast : (dx.toNat : ℤ) = dx := Int.toNat_of_nonneg (by linarith)
  rw [hcast] at hst hlow hhigh
  have hmdy : m = dy := by
    by_contra hne
    rcases lt_or_gt_of_ne hne with hlt | hgt
    · -- m ≤ dy - 1 contradicts the upper bound on p
      have h1 : m ≤ dy - 1 := by omega
      have h2 : (1 : ℤ) ≤ dx * (2 * dy - 2 * m - 1) := by
        have : (1 : ℤ) ≤ 2 * dy - 2 * m - 1 := by omega
        nlinarith
      nlinarith
    · -- m ≥ dy + 1 contradicts the lower bound on p
      have h1 : dy + 1 ≤ m := by omega
      have h2 : dx * (2 * m - 2 * dy - 1) ≥ dx := by
        have : (1 : ℤ) ≤ 2 * m - 2 * dy - 1 := by omega
        nlinarith
      nlinarith
  exact ⟨_, by rw [hst, hmdy]⟩

lemma bresenham_length (x1 y1 x2 y2 : ℤ) :
    (bresenham_line x1 y1 x2 y2).length = (max |x2 - x1| |y2 - y1|).toNat + 1 := by
  unfold bresenham_line
  by_cases h : |y2 - y1| < |x2 - x1|
  · rw [if_pos h, bresLoopX_length, max_eq_left (le_of_lt h)]
  · rw [if_neg h, bresLoopY_length, max_eq_right (not_lt.mp h)]

lemma bresenham_head (x1 y1 x2 y2 : ℤ) :
    (bresenham_line x1 y1 x2 y2).head? = some (x1, y1) := by
  unfold bresenham_line
  by_cases h : |y2 - y1| < |x2 - x1|
  · rw [if_pos h, bresLoopX_head]
  · rw [if_neg h, bresLoopY_head]

lemma bresenham_getLast (x1 y1 x2 y2 : ℤ) :
    (bresenham_line x1 y1 x2 y2).getLast? = some (x2, y2) := by
  unfold bresenham_line
  by_cases h : |y2 - y1| < |x2 - x1|
  · rw [if_pos h, bresLoopX_getLast]
    have hdx1 : (1 : ℤ) ≤ |x2 - x1| := by
      have h0 : 0 ≤ |y2 - y1| := abs_nonneg _
      have h1 : 0 < |x2 - x1| := lt_of_le_of_lt h0 h
      exact Int.lt_iff_add_one_le.mp h1
    obtain ⟨p, hp⟩ := bstepX_iterate_last |x2 - x1| |y2 - y1|
      (if x1 < x2 then 1 else -1) (if y1 < y2 then 1 else -1)
      hdx1 (abs_nonneg _) (le_of_lt h) x1 y1
    rw [hp]
    have hx : x1 + |x2 - x1| * (if x1 < x2 then (1 : ℤ) else -1) = x2 := by
      by_cases hc : x1 < x2
      · rw [if_pos hc, abs_of_pos (by omega)]; ring
      · rw [if_neg hc, abs_of_nonpos (by omega)]; ring
    have hy : y1 + |y2 - y1| * (if y1 < y2 then (1 : ℤ) else -1) = y2 := by
      by_cases hc : y1 < y2
      · rw [if_pos hc, abs_of_pos (by omega)]; ring
      · rw [if_neg hc, abs_of_nonpos (by omega)]; ring
    rw [hx, hy]
  · rw [if_neg h]
    by_cases hz : |y2 - y1| = 0
    · -- dy = 0 and dx ≤ dy forces the degenerate single-point case
      have hle : |x2 - x1| ≤ |y2 - y1| := not_lt.mp h
      have hx0 : |x2 - x1| = 0 := le_antisymm (hz ▸ hle) (abs_nonneg _)
      have hx : x2 = x1 := by have := abs_eq_zero.mp hx0; omega
      have hy : y2 = y1 := by have := abs_eq_zero.mp hz; omega
      subst hx; subst hy
      simp [sub_self, abs_zero, bresLoopY]
    · have hdy1 : (1 : ℤ) ≤ |y2 - y1| := by
        have h1 : 0 < |y2 - y1| := (abs_nonneg _).lt_of_ne (Ne.symm hz)
        exact Int.lt_iff_add_one_le.mp h1
      rw [bresLoopY_eq_swap, List.getLast?_map, bresLoopX_getLast]
      obtain ⟨p, hp⟩ := bstepX_iterate_last |y2 - y1| |x2 - x1|
        (if y1 < y2 then 1 else -1) (if x1 < x2 then 1 else -1)
        hdy1 (abs_nonneg _) (not_lt.mp h) y1 x1
      rw [hp]
      have hx : x1 + |x2 - x1| * (if x1 < x2 then (1 : ℤ) else -1) = x2 := by
        by_cases hc : x1 < x2
        · rw [if_pos hc, abs_of_pos (by omega)]; ring
        · rw [if_neg hc, abs_of_nonpos (by omega)]; ring
      have hy : y1 + |y2 - y1| * (if y1 < y2 then (1 : ℤ) else -1) = y2 := by
        by_cases hc : y1 < y2
        · rw [if_pos hc, abs_of_pos (by omega)]; ring
        · rw [if_neg hc, abs_of_nonpos (by omega)]; ring
      rw [Option.map_some', Prod.swap_prod_mk, hx, hy]

/-- C1: `bresenham_line` returns exactly `max(|dx|,|dy|)+1` points, starting
at `(x1,y1)` and ending at `(x2,y2)`; the degenerate case returns the single
point `(x1,y1)`. -/
theorem bresenham_endpoint_spec (x1 y1 x2 y2 : ℤ) :
    (bresenham_line x1 y1 x2 y2).length = (max |x2 - x1| |y2 - y1|).toNat + 1 ∧
    (bresenham_line x1 y1 x2 y2).head? = some (x1, y1) ∧
    (bresenham_line x1 y1 x2 y2).getLast? = some (x2, y2) ∧
    (x1 = x2 → y1 = y2 → bresenham_line x1 y1 x2 y2 = [(x1, y1)]) := by
  refine ⟨bresenham_length x1 y1 x2 y2, bresenham_head x1 y1 x2 y2,
    bresenham_getLast x1 y1 x2 y2, ?_⟩
  intro hx hy
  subst hx; subst hy
  unfold bresenham_line
  simp [bresLoopY]

/-- Witness for C1 at the degenerate input `(3,4)-(3,4)`. -/
theorem bresenham_endpoint_spec_witness :
    bresenham_line 3 4 3 4 = [(3, 4)] :=
  (bresenham_endpoint_spec 3 4 3 4).2.2.2 rfl rfl

/-! ### Midpoint circle algorithm (`midpoint_circle`, `filled_circle`, lines 56-117) -/

/-- The 8 symmetric points plotted per step of `midpoint_circle`. -/
def plot_circle_points (xc yc x y : ℤ) : List (ℤ × ℤ) :=
  [(xc + x, yc + y), (xc - x, yc + y),
   (xc + x, yc - y), (xc - x, yc - y),
   (xc + y, yc + x), (xc - y, yc + x),
   (xc + y, yc - x), (xc - y, yc - x)]

/-- The `while x < y` loop of `midpoint_circle`; Python increments `x`,
updates `p` (and possibly `y`), then plots.  Fuel dominates the trip count
(`x` strictly increases and `y` never increases). -/
def circleLoop (xc yc : ℤ) : ℕ → ℤ → ℤ → ℤ → List (ℤ × ℤ)
  | 0, _, _, _ => []
  | fuel + 1, x, y, p =>
      if x < y then
        if p < 0 then
          plot_circle_points xc yc (x + 1) y ++
            circleLoop xc yc fuel (x + 1) y (p + 2 * (x + 1) + 1)
        else
          plot_circle_points xc yc (x + 1) (y - 1) ++
            circleLoop xc yc fuel (x + 1) (y - 1) (p + 2 * ((x + 1) - (y - 1)) + 1)
      else []

/-- `midpoint_circle(xc, yc, r)` from `graphics_algorithms.py`. -/
def midpoint_circle (xc yc r : ℤ) : List (ℤ × ℤ) :=
  plot_circle_points xc yc 0 r ++ circleLoop xc yc (r.toNat + 1) 0 r (1 - r)

/-- `draw_horizontal_line(x1, x2, y)`: the pixels of
`range(min(x1,x2), max(x1,x2)+1)` at height `y`. -/
def draw_horizontal_line (x1 x2 y : ℤ) : List (ℤ × ℤ) :=
  (List.range (max x1 x2 + 1 - min x1 x2).toNat).map
    (fun i : ℕ => (min x1 x2 + (i : ℤ), y))

/-- The `while x <= y` loop of `filled_circle`: four horizontal spans, then
the same decision update as the stroke loop. -/
def filledCircleLoop (xc yc : ℤ) : ℕ → ℤ → ℤ → ℤ → List (ℤ × ℤ)
  | 0, _, _, _ => []
  | fuel + 1, x, y, p =>
      if x ≤ y then
        draw_horizontal_line (xc - x) (xc + x) (yc + y) ++
        draw_horizontal_line (xc - x) (xc + x) (yc - y) ++
        draw_horizontal_line (xc - y) (xc + y) (yc + x) ++
        draw_horizontal_line (xc - y) (xc + y) (yc - x) ++
        (if p < 0 then filledCircleLoop xc yc fuel (x + 1) y (p + 2 * (x + 1) + 1)
         else filledCircleLoop xc yc fuel (x + 1) (y - 1) (p + 2 * ((x + 1) - (y - 1)) + 1))
      else []

/-- `filled_circle(xc, yc, r)`; the final `list(set(points))` is modelled by
`List.dedup`. -/
def filled_circle (xc yc r : ℤ) : List (ℤ × ℤ) :=
  (filledCircleLoop xc yc (r.toNat + 2) 0 r (1 - r)).dedup

lemma draw_horizontal_line_self (a y : ℤ) : draw_horizontal_line a a y = [(a, y)] := by
  unfold draw_horizontal_line
  rw [max_self, min_self]
  have h1 : a + 1 - a = 1 := by ring
  rw [h1]
  rw [show (1 : ℤ).toNat = 1 from rfl, show List.range 1 = [0] from rfl]
  simp

/-- C4 (amended): with radius `0`, `midpoint_circle` and `filled_circle`
both return (as a set) exactly the center; with a negative radius
`filled_circle` returns the empty list, while `midpoint_circle` still
returns its initial set of 8 symmetric plots, i.e. (as a set) the four
points `(xc, yc±r)`, `(xc±r, yc)`. -/
theorem circle_degenerate_radius (xc yc r : ℤ) :
    (∀ p : ℤ × ℤ, p ∈ midpoint_circle xc yc 0 ↔ p = (xc, yc)) ∧
    (∀ p : ℤ × ℤ, p ∈ filled_circle xc yc 0 ↔ p = (xc, yc)) ∧
    (r < 0 → filled_circle xc yc r = [] ∧
      (∀ p : ℤ × ℤ, p ∈ midpoint_circle xc yc r ↔
        p ∈ [(xc, yc + r), (xc, yc - r), (xc + r, yc), (xc - r, yc)])) := by
  refine ⟨?_, ?_, ?_⟩
  · intro p
    simp [midpoint_circle, circleLoop, plot_circle_points]
  · intro p
    rw [show filled_circle xc yc 0 = (filledCircleLoop xc yc (1 + 1) 0 0 1).dedup from rfl,
      List.mem_dedup]
    simp only [filledCircleLoop]
    norm_num [draw_horizontal_line_self]
  · intro hr
    constructor
    · show (filledCircleLoop xc yc (r.toNat + 2) 0 r (1 - r)).dedup = []
      rw [show r.toNat + 2 = (r.toNat + 1) + 1 from rfl]
      simp only [filledCircleLoop]
      rw [if_neg (by omega)]
      rfl
    · intro p
      show p ∈ plot_circle_points xc yc 0 r ++ circleLoop xc yc (r.toNat + 1) 0 r (1 - r) ↔ _
      rw [show r.toNat + 1 = r.toNat + 1 from rfl]
      simp only [circleLoop]
      rw [if_neg (by omega)]
      simp only [plot_circle_points, List.append_nil, List.mem_cons,
        List.not_mem_nil, or_false, add_zero, sub_zero]
      tauto

/-- C4 counterexample: with a negative radius, `midpoint_circle` does not
return an empty point set: at `(0, 0, -1)` it contains `(0, 1)`. -/
theorem midpoint_circle_neg_radius_not_empty :
    ((0 : ℤ), (1 : ℤ)) ∈ midpoint_circle 0 0 (-1) := by decide

/-- Witness for C4 at `(xc, yc, r) = (0, 0, -1)`. -/
theorem circle_degenerate_radius_witness :
    (-1 : ℤ) < 0 ∧ filled_circle 0 0 (-1) = [] :=
  ⟨by norm_num, ((circle_degenerate_radius 0 0 (-1)).2.2 (by norm_num)).1⟩

set_option maxRecDepth 100000 in
set_option maxHeartbeats 1000000 in
lemma filled_circle_50_raw_bound :
    ∀ p ∈ filledCircleLoop 50 50 ((10 : ℤ).toNat + 2) 0 10 (1 - 10),
      (p.1 - 50) ^ 2 + (p.2 - 50) ^ 2 ≤ (114 : ℤ) := by decide

/-- C8: every pixel of `filled_circle(50, 50, 10)` lies within Euclidean
distance `r + 0.71` of the center, and the returned collection is
duplicate-free. -/
theorem filled_circle_50_bound_nodup :
    (∀ p ∈ filled_circle 50 50 10,
      Real.sqrt (((p.1 : ℝ) - 50) ^ 2 + ((p.2 : ℝ) - 50) ^ 2) ≤ 10 + 71 / 100) ∧
    (filled_circle 50 50 10).Nodup := by
  constructor
  · intro p hp
    have hp2 : p ∈ filledCircleLoop 50 50 ((10 : ℤ).toNat + 2) 0 10 (1 - 10) :=
      List.mem_dedup.mp hp
    have h := filled_circle_50_raw_bound p hp2
    have hS : ((p.1 : ℝ) - 50) ^ 2 + ((p.2 : ℝ) - 50) ^ 2 ≤ (10 + 71 / 100 : ℝ) ^ 2 := by
      have h' : (((p.1 - 50) ^ 2 + (p.2 - 50) ^ 2 : ℤ) : ℝ) ≤ ((114 : ℤ) : ℝ) := by
        exact_mod_cast h
      push_cast at h'
      nlinarith [h']
    calc Real.sqrt (((p.1 : ℝ) - 50) ^ 2 + ((p.2 : ℝ) - 50) ^ 2)
        ≤ Real.sqrt ((10 + 71 / 100 : ℝ) ^ 2) := Real.sqrt_le_sqrt hS
      _ = 10 + 71 / 100 := Real.sqrt_sq (by norm_num)
  · exact List.nodup_dedup _

set_option maxRecDepth 100000 in
/-- Witness for C8 at the pixel `(50, 60)` of the filled circle. -/
theorem filled_circle_50_bound_nodup_witness :
    Real.sqrt ((((50 : ℤ) : ℝ) - 50) ^ 2 + (((60 : ℤ) : ℝ) - 50) ^ 2) ≤ 10 + 71 / 100 :=
  filled_circle_50_bound_nodup.1 (50, 60) (List.mem_dedup.mpr (by decide))

/-- C5 counterexample: the forward run `(0,0)-(4,2)` contains `(1,1)` but the
swapped run `(4,2)-(0,0)` does not, so the two outputs differ as sets. -/
theorem bresenham_swap_not_set_equal :
    ((1 : ℤ), (1 : ℤ)) ∈ bresenham_line 0 0 4 2 ∧
    ((1 : ℤ), (1 : ℤ)) ∉ bresenham_line 4 2 0 0 := by decide

/-- C5 (amended): swapping the endpoints yields a run of the same length
whose first and last points are the original endpoints swapped (pointwise
set equality does not hold in general). -/
theorem bresenham_swap_endpoints (x1 y1 x2 y2 : ℤ) :
    (bresenham_line x2 y2 x1 y1).length = (bresenham_line x1 y1 x2 y2).length ∧
    (bresenham_line x2 y2 x1 y1).head? = some (x2, y2) ∧
    (bresenham_line x2 y2 x1 y1).getLast? = some (x1, y1) := by
  refine ⟨?_, bresenham_head x2 y2 x1 y1, bresenham_getLast x2 y2 x1 y1⟩
  rw [bresenham_length, bresenham_length, abs_sub_comm x1 x2, abs_sub_comm y1 y2,
    max_comm |x2 - x1| |y2 - y1|]

/-! ### Homogeneous 2D transformation matrices (`Transform2D`, lines 236-352) -/

/-- A 3×3 matrix of reals (a numpy `ndarray` of shape (3,3)). -/
structure Mat3 where
  m00 : ℝ
  m01 : ℝ
  m02 : ℝ
  m10 : ℝ
  m11 : ℝ
  m12 : ℝ
  m20 : ℝ
  m21 : ℝ
  m22 : ℝ

/-- Matrix multiplication (the numpy `@` operator on 3×3 arrays). -/
def Mat3.mul (A B : Mat3) : Mat3 where
  m00 := A.m00 * B.m00 + A.m01 * B.m10 + A.m02 * B.m20
  m01 := A.m00 * B.m01 + A.m01 * B.m11 + A.m02 * B.m21
  m02 := A.m00 * B.m02 + A.m01 * B.m12 + A.m02 * B.m22
  m10 := A.m10 * B.m00 + A.m11 * B.m10 + A.m12 * B.m20
  m11 := A.m10 * B.m01 + A.m11 * B.m11 + A.m12 * B.m21
  m12 := A.m10 * B.m02 + A.m11 * B.m12 + A.m12 * B.m22
  m20 := A.m20 * B.m00 + A.m21 * B.m10 + A.m22 * B.m20
  m21 := A.m20 * B.m01 + A.m21 * B.m11 + A.m22 * B.m21
  m22 := A.m20 * B.m02 + A.m21 * B.m12 + A.m22 * B.m22

namespace Transform2D

def translation_matrix (tx ty : ℝ) : Mat3 :=
  ⟨1, 0, tx, 0, 1, ty, 0, 0, 1⟩

def scaling_matrix (sx sy : ℝ) : Mat3 :=
  ⟨sx, 0, 0, 0, sy, 0, 0, 0, 1⟩

/-- `np.radians` converts degrees to radians; the rotation is CCW. -/
noncomputable def rotation_matrix (angle_degrees : ℝ) : Mat3 :=
  let theta := angle_degrees * Real.pi / 180
  ⟨Real.cos theta, -Real.sin theta, 0, Real.sin theta, Real.cos theta, 0, 0, 0, 1⟩

/-- `T2 @ R @ T1` (numpy `@` is left-associative). -/
noncomputable def rotation_about_point (angle_degrees px py : ℝ) : Mat3 :=
  let T1 := translation_matrix (-px) (-py)
  let R := rotation_matrix angle_degrees
  let T2 := translation_matrix px py
  (T2.mul R).mul T1

def scaling_about_point (sx sy px py : ℝ) : Mat3 :=
  let T1 := translation_matrix (-px) (-py)
  let S := scaling_matrix sx sy
  let T2 := translation_matrix px py
  (T2.mul S).mul T1

def shear_matrix (shx shy : ℝ) : Mat3 :=
  ⟨1, shx, 0, shy, 1, 0, 0, 0, 1⟩

def reflect_x : Mat3 := scaling_matrix 1 (-1)

def reflect_y : Mat3 := scaling_matrix (-1) 1

def reflect_origin : Mat3 := scaling_matrix (-1) (-1)

end Transform2D

/-- The affine invariant: the bottom row of a homogeneous matrix is `(0,0,1)`. -/
def lastRowAffine (M : Mat3) : Prop :=
  M.m20 = 0 ∧ M.m21 = 0 ∧ M.m22 = 1

/-- C9: every matrix built by the `Transform2D` operations has bottom row
exactly `(0, 0, 1)`, for all real parameters, including the composed
about-point products. -/
theorem transform2d_last_row (tx ty sx sy ang shx shy px py : ℝ) :
    lastRowAffine (Transform2D.translation_matrix tx ty) ∧
    lastRowAffine (Transform2D.scaling_matrix sx sy) ∧
    lastRowAffine (Transform2D.rotation_matrix ang) ∧
    lastRowAffine (Transform2D.shear_matrix shx shy) ∧
    lastRowAffine Transform2D.reflect_x ∧
    lastRowAffine Transform2D.reflect_y ∧
    lastRowAffine Transform2D.reflect_origin ∧
    lastRowAffine (Transform2D.rotation_about_point ang px py) ∧
    lastRowAffine (Transform2D.scaling_about_point sx sy px py) := by
  refine ⟨⟨rfl, rfl, rfl⟩, ⟨rfl, rfl, rfl⟩, ⟨rfl, rfl, rfl⟩, ⟨rfl, rfl, rfl⟩,
    ⟨rfl, rfl, rfl⟩, ⟨rfl, rfl, rfl⟩, ⟨rfl, rfl, rfl⟩, ?_, ?_⟩ <;>
  · refine ⟨?_, ?_, ?_⟩ <;>
    · simp [Transform2D.rotation_about_point, Transform2D.scaling_about_point,
        Transform2D.rotation_matrix, Transform2D.translation_matrix,
        Transform2D.scaling_matrix, Mat3.mul]

/-! ### Cohen-Sutherland line clipping (`CohenSutherland`, lines 359-436) -/

/-- The rectangular clip window (constructor arguments of both clippers). -/
structure Window where
  x_min : ℚ
  y_min : ℚ
  x_max : ℚ
  y_max : ℚ

/-- The x-contribution of `compute_code`: `LEFT = 1`, `RIGHT = 2`
(`if x < x_min: code |= LEFT; elif x > x_max: code |= RIGHT`). -/
def code_x (w : Window) (x : ℚ) : ℕ :=
  if x < w.x_min then 1 else if x > w.x_max then 2 else 0

/-- The y-contribution of `compute_code`: `BOTTOM = 4`, `TOP = 8`. -/
def code_y (w : Window) (y : ℚ) : ℕ :=
  if y < w.y_min then 4 else if y > w.y_max then 8 else 0

/-- `compute_code(x, y)`: the 4-bit outcode of a point. -/
def compute_code (w : Window) (x y : ℚ) : ℕ :=
  code_x w x ||| code_y w y

/-- Result of `clip_line`; `divisionByZero` marks the state in which the
Python code would divide by zero, `outOfFuel` is the artifact of modelling
the `while True` loop with fuel. -/
inductive ClipLineResult where
  | accepted : ℚ → ℚ → ℚ → ℚ → ClipLineResult
  | rejected : ClipLineResult
  | divisionByZero : ClipLineResult
  | outOfFuel : ClipLineResult
deriving DecidableEq

/-- `code_out = code1 if code1 != 0 else code2`: pick an endpoint that is
outside the window. -/
def pick_out (code1 code2 : ℕ) : ℕ := if code1 ≠ 0 then code1 else code2

/-- Replace the point whose outcode was picked by the intersection `(x, y)`
and recompute its outcode (the tail of each loop iteration). -/
def clip_replace (w : Window) (cont : ℚ → ℚ → ℚ → ℚ → ℕ → ℕ → ClipLineResult)
    (x1 y1 x2 y2 : ℚ) (code1 code2 : ℕ) (x y : ℚ) : ClipLineResult :=
  if pick_out code1 code2 = code1 then cont x y x2 y2 (compute_code w x y) code2
  else cont x1 y1 x y code1 (compute_code w x y)

/-- The `while True` loop of `clip_line`, carrying the current segment and
the two outcodes; boundary tests in the Python priority order TOP, BOTTOM,
RIGHT, LEFT.  Each interpolation is guarded: a zero divisor yields
`divisionByZero`, which is exactly where the Python code would raise. -/
def clip_loop (w : Window) : ℕ → ℚ → ℚ → ℚ → ℚ → ℕ → ℕ → ClipLineResult
  | 0, _, _, _, _, _, _ => .outOfFuel
  | fuel + 1, x1, y1, x2, y2, code1, code2 =>
    if code1 ||| code2 = 0 then .accepted x1 y1 x2 y2
    else if code1 &&& code2 ≠ 0 then .rejected
    else if pick_out code1 code2 &&& 8 ≠ 0 then
      if y2 - y1 = 0 then .divisionByZero
      else clip_replace w (clip_loop w fuel) x1 y1 x2 y2 code1 code2
        (x1 + (x2 - x1) * (w.y_max - y1) / (y2 - y1)) w.y_max
    else if pick_out code1 code2 &&& 4 ≠ 0 then
      if y2 - y1 = 0 then .divisionByZero
      else clip_replace w (clip_loop w fuel) x1 y1 x2 y2 code1 code2
        (x1 + (x2 - x1) * (w.y_min - y1) / (y2 - y1)) w.y_min
    else if pick_out code1 code2 &&& 2 ≠ 0 then
      if x2 - x1 = 0 then .divisionByZero
      else clip_replace w (clip_loop w fuel) x1 y1 x2 y2 code1 code2
        w.x_max (y1 + (y2 - y1) * (w.x_max - x1) / (x2 - x1))
    else if pick_out code1 code2 &&& 1 ≠ 0 then
      if x2 - x1 = 0 then .divisionByZero
      else clip_replace w (clip_loop w fuel) x1 y1 x2 y2 code1 code2
        w.x_min (y1 + (y2 - y1) * (w.x_min - x1) / (x2 - x1))
    else .rejected
    -- the final branch is unreachable: `pick_out` returns one of the two
    -- outcodes and is nonzero when it is reached

/-- `clip_line(x1, y1, x2, y2)` of `CohenSutherland`. -/
def clip_line (w : Window) (fuel : ℕ) (x1 y1 x2 y2 : ℚ) : ClipLineResult :=
  clip_loop w fuel x1 y1 x2 y2 (compute_code w x1 y1) (compute_code w x2 y2)

lemma code_x_cases (w : Window) (x : ℚ) :
    code_x w x = 0 ∨ code_x w x = 1 ∨ code_x w x = 2 := by
  unfold code_x
  split_ifs <;> simp

lemma code_y_cases (w : Window) (y : ℚ) :
    code_y w y = 0 ∨ code_y w y = 4 ∨ code_y w y = 8 := by
  unfold code_y
  split_ifs <;> simp

lemma lor_and_eight {a b : ℕ} (ha : a = 0 ∨ a = 1 ∨ a = 2)
    (hb : b = 0 ∨ b = 4 ∨ b = 8) : (a ||| b) &&& 8 ≠ 0 ↔ b = 8 := by
  rcases ha with rfl | rfl | rfl <;> rcases hb with rfl | rfl | rfl <;> decide

lemma lor_and_four {a b : ℕ} (ha : a = 0 ∨ a = 1 ∨ a = 2)
    (hb : b = 0 ∨ b = 4 ∨ b = 8) : (a ||| b) &&& 4 ≠ 0 ↔ b = 4 := by
  rcases ha with rfl | rfl | rfl <;> rcases hb with rfl | rfl | rfl <;> decide

lemma lor_and_two {a b : ℕ} (ha : a = 0 ∨ a = 1 ∨ a = 2)
    (hb : b = 0 ∨ b = 4 ∨ b = 8) : (a ||| b) &&& 2 ≠ 0 ↔ a = 2 := by
  rcases ha with rfl | rfl | rfl <;> rcases hb with rfl | rfl | rfl <;> decide

lemma lor_and_one {a b : ℕ} (ha : a = 0 ∨ a = 1 ∨ a = 2)
    (hb : b = 0 ∨ b = 4 ∨ b = 8) : (a ||| b) &&& 1 ≠ 0 ↔ a = 1 := by
  rcases ha with rfl | rfl | rfl <;> rcases hb with rfl | rfl | rfl <;> decide

lemma land_shared_y {a1 a2 b : ℕ} (ha1 : a1 = 0 ∨ a1 = 1 ∨ a1 = 2)
    (ha2 : a2 = 0 ∨ a2 = 1 ∨ a2 = 2) (hb : b = 4 ∨ b = 8) :
    (a1 ||| b) &&& (a2 ||| b) ≠ 0 := by
  rcases ha1 with rfl | rfl | rfl <;> rcases ha2 with rfl | rfl | rfl <;>
    rcases hb with rfl | rfl <;> decide

lemma land_shared_x {a b1 b2 : ℕ} (ha : a = 1 ∨ a = 2)
    (hb1 : b1 = 0 ∨ b1 = 4 ∨ b1 = 8) (hb2 : b2 = 0 ∨ b2 = 4 ∨ b2 = 8) :
    (a ||| b1) &&& (a ||| b2) ≠ 0 := by
  rcases ha with rfl | rfl <;> rcases hb1 with rfl | rfl | rfl <;>
    rcases hb2 with rfl | rfl | rfl <;> decide

lemma pick_out_and {c1 c2 k : ℕ} (h : pick_out c1 c2 &&& k ≠ 0) :
    c1 &&& k ≠ 0 ∨ c2 &&& k ≠ 0 := by
  unfold pick_out at h
  split at h
  · exact Or.inl h
  · exact Or.inr h

/-- If the segment is horizontal (`y2 - y1 = 0`) and either endpoint has the
TOP bit set, both do, so the trivial-reject test fires. -/
lemma top_bit_forces_reject (w : Window) (x1 y1 x2 y2 : ℚ) (hy : y2 - y1 = 0)
    (h : compute_code w x1 y1 &&& 8 ≠ 0 ∨ compute_code w x2 y2 &&& 8 ≠ 0) :
    compute_code w x1 y1 &&& compute_code w x2 y2 ≠ 0 := by
  have hy2 : y2 = y1 := sub_eq_zero.mp hy
  subst hy2
  unfold compute_code at *
  rcases h with h | h
  · rw [(lor_and_eight (code_x_cases w x1) (code_y_cases w y2)).mp h]
    exact land_shared_y (code_x_cases w x1) (code_x_cases w x2) (Or.inr rfl)
  · rw [(lor_and_eight (code_x_cases w x2) (code_y_cases w y2)).mp h]
    exact land_shared_y (code_x_cases w x1) (code_x_cases w x2) (Or.inr rfl)

/-- Same for the BOTTOM bit. -/
lemma bottom_bit_forces_reject (w : Window) (x1 y1 x2 y2 : ℚ) (hy : y2 - y1 = 0)
    (h : compute_code w x1 y1 &&& 4 ≠ 0 ∨ compute_code w x2 y2 &&& 4 ≠ 0) :
    compute_code w x1 y1 &&& compute_code w x2 y2 ≠ 0 := by
  have hy2 : y2 = y1 := sub_eq_zero.mp hy
  subst hy2
  unfold compute_code at *
  rcases h with h | h
  · rw [(lor_and_four (code_x_cases w x1) (code_y_cases w y2)).mp h]
    exact land_shared_y (code_x_cases w x1) (code_x_cases w x2) (Or.inl rfl)
  · rw [(lor_and_four (code_x_cases w x2) (code_y_cases w y2)).mp h]
    exact land_shared_y (code_x_cases w x1) (code_x_cases w x2) (Or.inl rfl)

/-- If the segment is vertical (`x2 - x1 = 0`) and either endpoint has the
RIGHT bit set, both do. -/
lemma right_bit_forces_reject (w : Window) (x1 y1 x2 y2 : ℚ) (hx : x2 - x1 = 0)
    (h : compute_code w x1 y1 &&& 2 ≠ 0 ∨ compute_code w x2 y2 &&& 2 ≠ 0) :
    compute_code w x1 y1 &&& compute_code w x2 y2 ≠ 0 := by
  have hx2 : x2 = x1 := sub_eq_zero.mp hx
  subst hx2
  unfold compute_code at *
  rcases h with h | h
  · rw [(lor_and_two (code_x_cases w x2) (code_y_cases w y1)).mp h]
    exact land_shared_x (Or.inr rfl) (code_y_cases w y1) (code_y_cases w y2)
  · rw [(lor_and_two (code_x_cases w x2) (code_y_cases w y2)).mp h]
    exact land_shared_x (Or.inr rfl) (code_y_cases w y1) (code_y_cases w y2)

/-- Same for the LEFT bit. -/
lemma left_bit_forces_reject (w : Window) (x1 y1 x2 y2 : ℚ) (hx : x2 - x1 = 0)
    (h : compute_code w x1 y1 &&& 1 ≠ 0 ∨ compute_code w x2 y2 &&& 1 ≠ 0) :
    compute_code w x1 y1 &&& compute_code w x2 y2 ≠ 0 := by
  have hx2 : x2 = x1 := sub_eq_zero.mp hx
  subst hx2
  unfold compute_code at *
  rcases h with h | h
  · rw [(lor_and_one (code_x_cases w x2) (code_y_cases w y1)).mp h]
    exact land_shared_x (Or.inl rfl) (code_y_cases w y1) (code_y_cases w y2)
  · rw [(lor_and_one (code_x_cases w x2) (code_y_cases w y2)).mp h]
    exact land_shared_x (Or.inl rfl) (code_y_cases w y1) (code_y_cases w y2)

/-- Whenever `clip_loop` runs with the outcodes of its endpoints, the
division-by-zero state is unreachable: a boundary bit chosen for the
interpolation together with a zero divisor would force both outcodes to
share that bit, which the trivial-reject test has already excluded. -/
lemma clip_loop_ne_divisionByZero (w : Window) :
    ∀ (fuel : ℕ) (x1 y1 x2 y2 : ℚ),
      clip_loop w fuel x1 y1 x2 y2 (compute_code w x1 y1) (compute_code w x2 y2)
        ≠ ClipLineResult.divisionByZero := by
  intro fuel
  induction fuel with
  | zero => intro x1 y1 x2 y2; simp [clip_loop]
  | succ fuel ih =>
      intro x1 y1 x2 y2
      simp only [clip_loop]
      by_cases h1 : compute_code w x1 y1 ||| compute_code w x2 y2 = 0
      · simp [h1]
      rw [if_neg h1]
      by_cases h2 : compute_code w x1 y1 &&& compute_code w x2 y2 ≠ 0
      · simp [h2]
      rw [if_neg h2]
      by_cases h8 : pick_out (compute_code w x1 y1) (compute_code w x2 y2) &&& 8 ≠ 0
      · rw [if_pos h8]
        by_cases hdiv : y2 - y1 = 0
        · exact absurd (top_bit_forces_reject w x1 y1 x2 y2 hdiv (pick_out_and h8)) h2
        · rw [if_neg hdiv]
          unfold clip_replace
          split
          · exact ih _ _ x2 y2
          · exact ih x1 y1 _ _
      rw [if_neg h8]
      by_cases h4 : pick_out (compute_code w x1 y1) (compute_code w x2 y2) &&& 4 ≠ 0
      · rw [if_pos h4]
        by_cases hdiv : y2 - y1 = 0
        · exact absurd (bottom_bit_forces_reject w x1 y1 x2 y2 hdiv (pick_out_and h4)) h2
        · rw [if_neg hdiv]
          unfold clip_replace
          split
          · exact ih _ _ x2 y2
          · exact ih x1 y1 _ _
      rw [if_neg h4]
      by_cases hr : pick_out (compute_code w x1 y1) (compute_code w x2 y2) &&& 2 ≠ 0
      · rw [if_pos hr]
        by_cases hdiv : x2 - x1 = 0
        · exact absurd (right_bit_forces_reject w x1 y1 x2 y2 hdiv (pick_out_and hr)) h2
        · rw [if_neg hdiv]
          unfold clip_replace
          split
          · exact ih _ _ x2 y2
          · exact ih x1 y1 _ _
      rw [if_neg hr]
      by_cases hl : pick_out (compute_code w x1 y1) (compute_code w x2 y2) &&& 1 ≠ 0
      · rw [if_pos hl]
        by_cases hdiv : x2 - x1 = 0
        · exact absurd (left_bit_forces_reject w x1 y1 x2 y2 hdiv (pick_out_and hl)) h2
        · rw [if_neg hdiv]
          unfold clip_replace
          split
          · exact ih _ _ x2 y2
          · exact ih x1 y1 _ _
      rw [if_neg hl]
      simp

/-- C3 counterexample (negation of the claim): there is no clip window and
axis-aligned segment on which `clip_line` reaches the interpolation with a
zero divisor; such segments are trivially rejected first. -/
theorem cohen_sutherland_div_zero_not_reachable :
    ¬ ∃ (w : Window) (fuel : ℕ) (x1 y1 x2 y2 : ℚ),
        w.x_min ≤ w.x_max ∧ w.y_min ≤ w.y_max ∧ (x1 = x2 ∨ y1 = y2) ∧
        clip_line w fuel x1 y1 x2 y2 = ClipLineResult.divisionByZero := by
  rintro ⟨w, fuel, x1, y1, x2, y2, -, -, -, hrun⟩
  exact clip_loop_ne_divisionByZero w fuel x1 y1 x2 y2 hrun

/-- C3 (amended): for every window, every fuel bound and every segment,
`clip_line` never reaches a boundary interpolation with a zero divisor;
the division-by-zero hazard claimed by the design notes is unreachable. -/
theorem cohen_sutherland_div_zero_unreachable (w : Window) (fuel : ℕ) (x1 y1 x2 y2 : ℚ) :
    clip_line w fuel x1 y1 x2 y2 ≠ ClipLineResult.divisionByZero :=
  clip_loop_ne_divisionByZero w fuel x1 y1 x2 y2

/-! ### Sutherland-Hodgman polygon clipping (`SutherlandHodgman`, lines 443-529) -/

/-- The signed cross product used by the `inside` test of `_clip_edge`:
`(eE.x - eS.x)(p.y - eS.y) - (eE.y - eS.y)(p.x - eS.x)`. -/
def sh_cross (eS eE p : ℚ × ℚ) : ℚ :=
  (eE.1 - eS.1) * (p.2 - eS.2) - (eE.2 - eS.2) * (p.1 - eS.1)

/-- `inside(p)`: the point is on the left side of the directed clip edge. -/
def sh_inside (eS eE p : ℚ × ℚ) : Bool := decide (0 ≤ sh_cross eS eE p)

/-- The denominator of the two-line parametric solve in `intersection`. -/
def sh_denom (p1 p2 eS eE : ℚ × ℚ) : ℚ :=
  (p1.1 - p2.1) * (eS.2 - eE.2) - (p1.2 - p2.2) * (eS.1 - eE.1)

/-- The numerator `t * denom` of the parametric solve. -/
def sh_tnum (p1 eS eE : ℚ × ℚ) : ℚ :=
  (p1.1 - eS.1) * (eS.2 - eE.2) - (p1.2 - eS.2) * (eS.1 - eE.1)

/-- `(x1 + t(x2-x1), y1 + t(y2-y1))`: the point at parameter `t` on the
segment `p1-p2`. -/
def segPoint (p1 p2 : ℚ × ℚ) (t : ℚ) : ℚ × ℚ :=
  (p1.1 + t * (p2.1 - p1.1), p1.2 + t * (p2.2 - p1.2))

/-- `intersection(p1, p2)` of `_clip_edge`, with the `1e-10` near-parallel
fallback that returns `p1` unchanged. -/
def sh_intersection (eS eE p1 p2 : ℚ × ℚ) : ℚ × ℚ :=
  if |sh_denom p1 p2 eS eE| < 1 / 10 ^ 10 then p1
  else segPoint p1 p2 (sh_tnum p1 eS eE / sh_denom p1 p2 eS eE)

/-- The body of the vertex-pair loop of `_clip_edge` (the four in/out
cases). -/
def clip_edge_step (eS eE c n : ℚ × ℚ) : List (ℚ × ℚ) :=
  if sh_inside eS eE c then
    if sh_inside eS eE n then [n] else [sh_intersection eS eE c n]
  else
    if sh_inside eS eE n then [sh_intersection eS eE c n, n] else []

/-- `_clip_edge(polygon, edge_start, edge_end)`: clip against one edge.
`polygon.zip (polygon.rotate 1)` is exactly the Python sequence of pairs
`(polygon[i], polygon[(i+1) % n])`; an empty polygon yields `[]`. -/
def _clip_edge (polygon : List (ℚ × ℚ)) (eS eE : ℚ × ℚ) : List (ℚ × ℚ) :=
  (polygon.zip (polygon.rotate 1)).flatMap (fun cn => clip_edge_step eS eE cn.1 cn.2)

/-- The four window edges, counter-clockwise: bottom, right, top, left. -/
def sh_edges (w : Window) : List ((ℚ × ℚ) × (ℚ × ℚ)) :=
  [((w.x_min, w.y_min), (w.x_max, w.y_min)),
   ((w.x_max, w.y_min), (w.x_max, w.y_max)),
   ((w.x_max, w.y_max), (w.x_min, w.y_max)),
   ((w.x_min, w.y_max), (w.x_min, w.y_min))]

/-- The pass loop of `clip_polygon`: clip against each window edge in turn,
stopping as soon as the working polygon is empty. -/
def clip_passes : List ((ℚ × ℚ) × (ℚ × ℚ)) → List (ℚ × ℚ) → List (ℚ × ℚ)
  | [], q => q
  | e :: es, q => if q.isEmpty then q else clip_passes es (_clip_edge q e.1 e.2)

/-- `clip_polygon(polygon)` of `SutherlandHodgman`. -/
def clip_polygon (w : Window) (polygon : List (ℚ × ℚ)) : List (ℚ × ℚ) :=
  clip_passes (sh_edges w) polygon

/-- `true` iff no `intersection` call made during this pass would take the
near-parallel `1e-10` fallback (intersections are computed exactly for the
pairs that straddle the edge). -/
def edge_ff (polygon : List (ℚ × ℚ)) (eS eE : ℚ × ℚ) : Bool :=
  (polygon.zip (polygon.rotate 1)).all fun cn =>
    (sh_inside eS eE cn.1 == sh_inside eS eE cn.2) ||
      !(|sh_denom cn.1 cn.2 eS eE| < 1 / 10 ^ 10)

/-- `true` iff no pass of `clip_polygon` takes the near-parallel fallback. -/
def clip_passes_ff : List ((ℚ × ℚ) × (ℚ × ℚ)) → List (ℚ × ℚ) → Bool
  | [], _ => true
  | e :: es, q =>
      if q.isEmpty then true
      else edge_ff q e.1 e.2 && clip_passes_ff es (_clip_edge q e.1 e.2)

/-- Fallback-freedom of a whole `clip_polygon` run. -/
def clip_polygon_ff (w : Window) (polygon : List (ℚ × ℚ)) : Bool :=
  clip_passes_ff (sh_edges w) polygon

lemma sh_cross_segPoint (eS eE p1 p2 : ℚ × ℚ) (t : ℚ) :
    sh_cross eS eE (segPoint p1 p2 t)
      = sh_cross eS eE p1 + t * (sh_cross eS eE p2 - sh_cross eS eE p1) := by
  unfold sh_cross segPoint
  ring

lemma sh_denom_eq_cross (p1 p2 eS eE : ℚ × ℚ) :
    sh_denom p1 p2 eS eE = sh_cross eS eE p1 - sh_cross eS eE p2 := by
  unfold sh_denom sh_cross
  ring

lemma sh_tnum_eq_cross (p1 eS eE : ℚ × ℚ) :
    sh_tnum p1 eS eE = sh_cross eS eE p1 := by
  unfold sh_tnum sh_cross
  ring
/-- When `intersection` is called on a pair that straddles the edge and the
near-parallel fallback is not taken, it returns a point of the segment
(`t ∈ [0,1]`) lying exactly on the edge line. -/
lemma sh_intersection_spec (eS eE p1 p2 : ℚ × ℚ)
    (hstraddle : sh_inside eS eE p1 ≠ sh_inside eS eE p2)
    (hff : ¬ |sh_denom p1 p2 eS eE| < 1 / 10 ^ 10) :
    ∃ t : ℚ, 0 ≤ t ∧ t ≤ 1 ∧ sh_intersection eS eE p1 p2 = segPoint p1 p2 t ∧
      sh_cross eS eE (segPoint p1 p2 t) = 0 := by
  have hd0 : sh_denom p1 p2 eS eE ≠ 0 := fun h => hff (by rw [h]; norm_num)
  have hden : sh_denom p1 p2 eS eE = sh_cross eS eE p1 - sh_cross eS eE p2 :=
    sh_denom_eq_cross p1 p2 eS eE
  have htnum : sh_tnum p1 eS eE = sh_cross eS eE p1 := sh_tnum_eq_cross p1 eS eE
  have hd0' : sh_cross eS eE p1 - sh_cross eS eE p2 ≠ 0 := hden ▸ hd0
  have hsigns : (0 ≤ sh_cross eS eE p1 ∧ sh_cross eS eE p2 < 0) ∨
      (sh_cross eS eE p1 < 0 ∧ 0 ≤ sh_cross eS eE p2) := by
    cases h1 : sh_inside eS eE p1 <;> cases h2 : sh_inside eS eE p2
    · exact absurd (by rw [h1, h2]) hstraddle
    · exact Or.inr ⟨not_le.mp (of_decide_eq_false h1), of_decide_eq_true h2⟩
    · exact Or.inl ⟨of_decide_eq_true h1, not_le.mp (of_decide_eq_false h2)⟩
    · exact absurd (by rw [h1, h2]) hstraddle
  refine ⟨sh_tnum p1 eS eE / sh_denom p1 p2 eS eE, ?_, ?_, ?_, ?_⟩
  · rw [htnum, hden]
    rcases hsigns with ⟨h1, h2⟩ | ⟨h1, h2⟩
    · exact div_nonneg h1 (by linarith)
    · exact div_nonneg_iff.mpr (Or.inr ⟨le_of_lt h1, by linarith⟩)
  · have key : 1 - sh_tnum p1 eS eE / sh_denom p1 p2 eS eE
        = (- sh_cross eS eE p2) / (sh_cross eS eE p1 - sh_cross eS eE p2) := by
      rw [htnum, hden]
      field_simp
    have hnn : 0 ≤ (- sh_cross eS eE p2) / (sh_cross eS eE p1 - sh_cross eS eE p2) := by
      rcases hsigns with ⟨h1, h2⟩ | ⟨h1, h2⟩
      · exact div_nonneg (by linarith) (by linarith)
      · exact div_nonneg_iff.mpr (Or.inr ⟨by linarith, by linarith⟩)
    rw [← key] at hnn
    linarith
  · unfold sh_intersection
    rw [if_neg hff]
  · rw [sh_cross_segPoint, htnum, hden]
    field_simp
    ring

lemma segPoint_zero (c n : ℚ × ℚ) : segPoint c n 0 = c := by
  unfold segPoint
  have h1 : c.1 + 0 * (n.1 - c.1) = c.1 := by ring
  have h2 : c.2 + 0 * (n.2 - c.2) = c.2 := by ring
  rw [h1, h2]

lemma segPoint_one (c n : ℚ × ℚ) : segPoint c n 1 = n := by
  unfold segPoint
  have h1 : c.1 + 1 * (n.1 - c.1) = n.1 := by ring
  have h2 : c.2 + 1 * (n.2 - c.2) = n.2 := by ring
  rw [h1, h2]

/-- Every vertex emitted by one loop iteration of `_clip_edge` lies on the
segment `c-n`: an emitted original vertex is the endpoint `t = 1`, the
fallback returns `t = 0`, and a computed intersection has `t ∈ [0,1]`. -/
lemma clip_edge_step_mem (eS eE c n v : ℚ × ℚ) (hv : v ∈ clip_edge_step eS eE c n) :
    ∃ t : ℚ, 0 ≤ t ∧ t ≤ 1 ∧ v = segPoint c n t := by
  unfold clip_edge_step at hv
  cases hc : sh_inside eS eE c <;> cases hn : sh_inside eS eE n <;>
    rw [hc, hn] at hv <;> simp only [Bool.false_eq_true, if_false, if_true,
      List.mem_singleton, List.mem_cons, List.not_mem_nil, or_false] at hv
  · -- out → in: an intersection followed by the next vertex
    rcases hv with hv | hv
    · unfold sh_intersection at hv
      by_cases hfb : |sh_denom c n eS eE| < 1 / 10 ^ 10
      · rw [if_pos hfb] at hv
        exact ⟨0, le_refl 0, by norm_num, by rw [segPoint_zero]; exact hv⟩
      · obtain ⟨t, h0, h1, heq, -⟩ :=
          sh_intersection_spec eS eE c n (by rw [hc, hn]; simp) hfb
        unfold sh_intersection at heq
        rw [if_neg hfb] at heq hv
        exact ⟨t, h0, h1, by rw [hv, heq]⟩
    · exact ⟨1, by norm_num, by norm_num, by rw [segPoint_one]; exact hv⟩
  · -- in → out: an intersection
    unfold sh_intersection at hv
    by_cases hfb : |sh_denom c n eS eE| < 1 / 10 ^ 10
    · rw [if_pos hfb] at hv
      exact ⟨0, le_refl 0, by norm_num, by rw [segPoint_zero]; exact hv⟩
    · obtain ⟨t, h0, h1, heq, -⟩ :=
        sh_intersection_spec eS eE c n (by rw [hc, hn]; simp) hfb
      unfold sh_intersection at heq
      rw [if_neg hfb] at heq hv
      exact ⟨t, h0, h1, by rw [hv, heq]⟩
  · -- in → in: the next vertex itself
    exact ⟨1, by norm_num, by norm_num, by rw [segPoint_one]; exact hv⟩

/-- With the fallback excluded on straddling pairs, every emitted vertex is
on the inside (left) closed half-plane of the clip edge. -/
lemma clip_edge_step_inside (eS eE c n v : ℚ × ℚ) (hv : v ∈ clip_edge_step eS eE c n)
    (hff : ((sh_inside eS eE c == sh_inside eS eE n) ||
      !(decide (|sh_denom c n eS eE| < 1 / 10 ^ 10))) = true) :
    0 ≤ sh_cross eS eE v := by
  unfold clip_edge_step at hv
  cases hc : sh_inside eS eE c <;> cases hn : sh_inside eS eE n <;>
    rw [hc, hn] at hv <;> simp only [Bool.false_eq_true, if_false, if_true,
      List.mem_singleton, List.mem_cons, List.not_mem_nil, or_false] at hv
  · -- out → in
    have hfb : ¬ |sh_denom c n eS eE| < 1 / 10 ^ 10 := by
      intro hP
      rw [hc, hn, decide_eq_true hP] at hff
      simp at hff
    rcases hv with hv | hv
    · obtain ⟨t, -, -, heq, hzero⟩ :=
        sh_intersection_spec eS eE c n (by rw [hc, hn]; simp) hfb
      rw [hv, heq]
      exact le_of_eq hzero.symm
    · rw [hv]
      exact of_decide_eq_true hn
  · -- in → out
    have hfb : ¬ |sh_denom c n eS eE| < 1 / 10 ^ 10 := by
      intro hP
      rw [hc, hn, decide_eq_true hP] at hff
      simp at hff
    obtain ⟨t, -, -, heq, hzero⟩ :=
      sh_intersection_spec eS eE c n (by rw [hc, hn]; simp) hfb
    rw [hv, heq]
    exact le_of_eq hzero.symm
  · -- in → in
    rw [hv]
    exact of_decide_eq_true hn

/-- Every output vertex of a single clipping pass lies on a segment between
two vertices of the input polygon. -/
lemma _clip_edge_mem (q : List (ℚ × ℚ)) (eS eE v : ℚ × ℚ)
    (hv : v ∈ _clip_edge q eS eE) :
    ∃ c ∈ q, ∃ n ∈ q, ∃ t : ℚ, 0 ≤ t ∧ t ≤ 1 ∧ v = segPoint c n t := by
  unfold _clip_edge at hv
  rw [List.mem_flatMap] at hv
  obtain ⟨cn, hcn, hv⟩ := hv
  obtain ⟨c, n⟩ := cn
  have hmem := List.of_mem_zip hcn
  obtain ⟨t, h0, h1, heq⟩ := clip_edge_step_mem eS eE c n v hv
  exact ⟨c, hmem.1, n, List.mem_rotate.mp hmem.2, t, h0, h1, heq⟩

/-- A predicate preserved under points of segments is preserved by a
clipping pass. -/
lemma _clip_edge_preserves (P : ℚ × ℚ → Prop)
    (hP : ∀ c n (t : ℚ), 0 ≤ t → t ≤ 1 → P c → P n → P (segPoint c n t))
    (q : List (ℚ × ℚ)) (eS eE : ℚ × ℚ) (hq : ∀ v ∈ q, P v) :
    ∀ v ∈ _clip_edge q eS eE, P v := by
  intro v hv
  obtain ⟨c, hc, n, hn, t, h0, h1, heq⟩ := _clip_edge_mem q eS eE v hv
  rw [heq]
  exact hP c n t h0 h1 (hq c hc) (hq n hn)

/-- A fallback-free pass emits only vertices inside its own half-plane. -/
lemma _clip_edge_self_inside (q : List (ℚ × ℚ)) (eS eE : ℚ × ℚ)
    (hff : edge_ff q eS eE = true) :
    ∀ v ∈ _clip_edge q eS eE, 0 ≤ sh_cross eS eE v := by
  intro v hv
  unfold _clip_edge at hv
  rw [List.mem_flatMap] at hv
  obtain ⟨cn, hcn, hv⟩ := hv
  obtain ⟨c, n⟩ := cn
  unfold edge_ff at hff
  rw [List.all_eq_true] at hff
  exact clip_edge_step_inside eS eE c n v hv (hff (c, n) hcn)

/-- The inside half-plane predicate of any edge is preserved by segment
points with parameter in `[0,1]`. -/
lemma sh_cross_convex (eS eE : ℚ × ℚ) (c n : ℚ × ℚ) (t : ℚ) (h0 : 0 ≤ t) (h1 : t ≤ 1)
    (hc : 0 ≤ sh_cross eS eE c) (hn : 0 ≤ sh_cross eS eE n) :
    0 ≤ sh_cross eS eE (segPoint c n t) := by
  rw [sh_cross_segPoint]
  nlinarith

/-- Predicate preservation through the whole sequence of clipping passes. -/
lemma clip_passes_preserves (P : ℚ × ℚ → Prop)
    (hP : ∀ c n (t : ℚ), 0 ≤ t → t ≤ 1 → P c → P n → P (segPoint c n t)) :
    ∀ (es : List ((ℚ × ℚ) × (ℚ × ℚ))) (q : List (ℚ × ℚ)), (∀ v ∈ q, P v) →
      ∀ v ∈ clip_passes es q, P v := by
  intro es
  induction es with
  | nil => intro q hq v hv; exact hq v hv
  | cons e es ih =>
      intro q hq v hv
      rw [clip_passes] at hv
      by_cases hqe : q.isEmpty
      · rw [if_pos hqe] at hv
        exact hq v hv
      · rw [if_neg hqe] at hv
        exact ih (_clip_edge q e.1 e.2) (_clip_edge_preserves P hP q e.1 e.2 hq) v hv

/-- In a fallback-free run, every final vertex is inside the half-plane of
every processed edge. -/
lemma clip_passes_cross :
    ∀ (es : List ((ℚ × ℚ) × (ℚ × ℚ))) (q : List (ℚ × ℚ)),
      clip_passes_ff es q = true →
      ∀ e ∈ es, ∀ v ∈ clip_passes es q, 0 ≤ sh_cross e.1 e.2 v := by
  intro es
  induction es with
  | nil => intro q _ e he; exact absurd he (List.not_mem_nil e)
  | cons e0 es ih =>
      intro q hff e he v hv
      rw [clip_passes] at hv
      rw [clip_passes_ff] at hff
      by_cases hqe : q.isEmpty
      · rw [if_pos hqe] at hv
        rw [List.isEmpty_iff.mp hqe] at hv
        exact absurd hv (List.not_mem_nil v)
      · rw [if_neg hqe] at hv
        rw [if_neg hqe, Bool.and_eq_true] at hff
        rcases List.mem_cons.mp he with rfl | he2
        · exact clip_passes_preserves (fun p => 0 ≤ sh_cross e.1 e.2 p)
            (sh_cross_convex e.1 e.2) es (_clip_edge q e.1 e.2)
            (_clip_edge_self_inside q e.1 e.2 hff.1) v hv
        · exact ih (_clip_edge q e0.1 e0.2) hff.2 e he2 v hv

/-- C10 (amended): for a nondegenerate window, whenever the run takes no
near-parallel fallback (`clip_polygon_ff`), every vertex returned by
`clip_polygon` lies inside the window. -/
theorem clip_polygon_in_window (w : Window) (hx : w.x_min < w.x_max)
    (hy : w.y_min < w.y_max) (poly : List (ℚ × ℚ))
    (hff : clip_polygon_ff w poly = true) :
    ∀ v ∈ clip_polygon w poly,
      w.x_min ≤ v.1 ∧ v.1 ≤ w.x_max ∧ w.y_min ≤ v.2 ∧ v.2 ≤ w.y_max := by
  intro v hv
  have hcross := clip_passes_cross (sh_edges w) poly hff
  have h1 := hcross ((w.x_min, w.y_min), (w.x_max, w.y_min)) (by simp [sh_edges]) v hv
  have h2 := hcross ((w.x_max, w.y_min), (w.x_max, w.y_max)) (by simp [sh_edges]) v hv
  have h3 := hcross ((w.x_max, w.y_max), (w.x_min, w.y_max)) (by simp [sh_edges]) v hv
  have h4 := hcross ((w.x_min, w.y_max), (w.x_min, w.y_min)) (by simp [sh_edges]) v hv
  simp only [sh_cross] at h1 h2 h3 h4
  refine ⟨by nlinarith, by nlinarith, by nlinarith, by nlinarith⟩

set_option maxHeartbeats 2000000 in
/-- C10 counterexample: with window `(0,0,10,10)` and a triangle one of
whose edges crosses the bottom boundary almost parallel to it
(`denominator = 10^-11 < 10^-10`), the fallback emits the outside vertex,
and the final output of `clip_polygon` contains a vertex with `y < yMin`. -/
theorem clip_polygon_fallback_escapes_window :
    ∃ v ∈ clip_polygon ⟨0, 0, 10, 10⟩
        [(-100, -(1 / 10 ^ 12)), (5, 0), (5, 5)], v.2 < 0 := by
  have h1 : _clip_edge [(-100, -(1 / 10 ^ 12)), (5, 0), (5, 5)]
      ((0 : ℚ), (0 : ℚ)) ((10 : ℚ), (0 : ℚ))
      = [(-100, -1 / 1000000000000), (5, 0), (5, 5),
         (-166666666666665 / 1666666666667, 0)] := by
    norm_num [_clip_edge, clip_edge_step, sh_inside, sh_cross, sh_intersection,
      sh_denom, sh_tnum, segPoint, List.rotate, List.flatMap, abs_of_pos,
      abs_of_nonpos]
  have h2 : _clip_edge [(-100, -1 / 1000000000000), (5, 0), (5, 5),
      (-166666666666665 / 1666666666667, 0)] ((10 : ℚ), (0 : ℚ)) ((10 : ℚ), (10 : ℚ))
      = [(5, 0), (5, 5), (-166666666666665 / 1666666666667, 0),
         (-100, -1 / 1000000000000)] := by
    norm_num [_clip_edge, clip_edge_step, sh_inside, sh_cross, sh_intersection,
      sh_denom, sh_tnum, segPoint, List.rotate, List.flatMap, abs_of_pos,
      abs_of_nonpos]
  have h3 : _clip_edge [(5, 0), (5, 5), (-166666666666665 / 1666666666667, 0),
      (-100, -1 / 1000000000000)] ((10 : ℚ), (10 : ℚ)) ((0 : ℚ), (10 : ℚ))
      = [(5, 5), (-166666666666665 / 1666666666667, 0),
         (-100, -1 / 1000000000000), (5, 0)] := by
    norm_num [_clip_edge, clip_edge_step, sh_inside, sh_cross, sh_intersection,
      sh_denom, sh_tnum, segPoint, List.rotate, List.flatMap, abs_of_pos,
      abs_of_nonpos]
  have h4 : _clip_edge [(5, 5), (-166666666666665 / 1666666666667, 0),
      (-100, -1 / 1000000000000), (5, 0)] ((0 : ℚ), (10 : ℚ)) ((0 : ℚ), (0 : ℚ))
      = [(0, 33333333333333 / 7000000000000), (0, -1 / 21000000000000),
         (5, 0), (5, 5)] := by
    norm_num [_clip_edge, clip_edge_step, sh_inside, sh_cross, sh_intersection,
      sh_denom, sh_tnum, segPoint, List.rotate, List.flatMap, abs_of_pos,
      abs_of_nonpos]
  have hres : clip_polygon ⟨0, 0, 10, 10⟩ [(-100, -(1 / 10 ^ 12)), (5, 0), (5, 5)]
      = [(0, 33333333333333 / 7000000000000), (0, -1 / 21000000000000),
         (5, 0), (5, 5)] := by
    show clip_passes (sh_edges ⟨0, 0, 10, 10⟩) _ = _
    rw [show sh_edges ⟨0, 0, 10, 10⟩
        = [(((0 : ℚ), (0 : ℚ)), ((10 : ℚ), (0 : ℚ))),
           (((10 : ℚ), (0 : ℚ)), ((10 : ℚ), (10 : ℚ))),
           (((10 : ℚ), (10 : ℚ)), ((0 : ℚ), (10 : ℚ))),
           (((0 : ℚ), (10 : ℚ)), ((0 : ℚ), (0 : ℚ)))] from rfl]
    rw [clip_passes, if_neg (by simp), h1]
    rw [clip_passes, if_neg (by simp), h2]
    rw [clip_passes, if_neg (by simp), h3]
    rw [clip_passes, if_neg (by simp), h4]
    rw [clip_passes]
  rw [hres]
  refine ⟨(0, -1 / 21000000000000), by norm_num, by norm_num⟩

/-- Witness for C10: the square example's run is fallback-free, and the
output vertex `(5, 0)` is confirmed inside the window. -/
theorem clip_polygon_in_window_witness :
    (0 : ℚ) ≤ (5 : ℚ) ∧ (5 : ℚ) ≤ (10 : ℚ) ∧ (0 : ℚ) ≤ (0 : ℚ) ∧ (0 : ℚ) ≤ (10 : ℚ) :=
  clip_polygon_in_window ⟨0, 0, 10, 10⟩ (by norm_num) (by norm_num)
    [(-5, -5), (5, -5), (5, 5), (-5, 5)]
    (by norm_num [clip_polygon_ff, clip_passes_ff, edge_ff, _clip_edge,
      clip_edge_step, sh_inside, sh_cross, sh_intersection, sh_denom, sh_tnum,
      segPoint, List.rotate, List.flatMap])
    (5, 0)
    (by norm_num [clip_polygon, clip_passes, sh_edges, _clip_edge,
      clip_edge_step, sh_inside, sh_cross, sh_intersection, sh_denom, sh_tnum,
      segPoint, List.rotate, List.flatMap])

lemma segPoint_fst_neg (c n : ℚ × ℚ) (t : ℚ) (h0 : 0 ≤ t) (h1 : t ≤ 1)
    (hc : c.1 < 0) (hn : n.1 < 0) : (segPoint c n t).1 < 0 := by
  show c.1 + t * (n.1 - c.1) < 0
  rcases h0.eq_or_lt with heq | hpos
  · rw [← heq]
    simpa using hc
  · have ht : t * n.1 < 0 := mul_neg_of_pos_of_neg hpos hn
    nlinarith

/-- A pass against an edge for which every polygon vertex is outside emits
nothing. -/
lemma _clip_edge_outside_empty (q : List (ℚ × ℚ)) (eS eE : ℚ × ℚ)
    (h : ∀ v ∈ q, sh_inside eS eE v = false) :
    _clip_edge q eS eE = [] := by
  unfold _clip_edge
  rw [List.flatMap_eq_nil_iff]
  intro cn hcn
  obtain ⟨c, n⟩ := cn
  have hm := List.of_mem_zip hcn
  unfold clip_edge_step
  rw [h c hm.1, h n (List.mem_rotate.mp hm.2)]
  simp

/-- C6: clipping the square `(-5,-5),(5,-5),(5,5),(-5,5)` against window
`(0,0,10,10)` yields exactly the quadrant rectangle `(0,0),(5,0),(5,5),(0,5)`;
and any polygon entirely to the left of the window (`x < 0` everywhere)
clips to the empty vertex list. -/
theorem sutherland_hodgman_square_and_outside :
    clip_polygon ⟨0, 0, 10, 10⟩ [(-5, -5), (5, -5), (5, 5), (-5, 5)]
      = [(0, 0), (5, 0), (5, 5), (0, 5)] ∧
    ∀ poly : List (ℚ × ℚ), (∀ v ∈ poly, v.1 < 0) →
      clip_polygon ⟨0, 0, 10, 10⟩ poly = [] := by
  constructor
  · norm_num [clip_polygon, clip_passes, sh_edges, _clip_edge, clip_edge_step,
      sh_inside, sh_cross, sh_intersection, sh_denom, sh_tnum, segPoint,
      List.rotate, List.flatMap]
  · intro poly hpoly
    show clip_passes (sh_edges ⟨0, 0, 10, 10⟩) poly = []
    have hpres : ∀ (q : List (ℚ × ℚ)), (∀ v ∈ q, v.1 < 0) → ∀ (eS eE : ℚ × ℚ),
        ∀ v ∈ _clip_edge q eS eE, v.1 < 0 := fun q hq eS eE =>
      _clip_edge_preserves (fun p => p.1 < 0) segPoint_fst_neg q eS eE hq
    rw [show sh_edges ⟨0, 0, 10, 10⟩
        = [(((0 : ℚ), (0 : ℚ)), ((10 : ℚ), (0 : ℚ))),
           (((10 : ℚ), (0 : ℚ)), ((10 : ℚ), (10 : ℚ))),
           (((10 : ℚ), (10 : ℚ)), ((0 : ℚ), (10 : ℚ))),
           (((0 : ℚ), (10 : ℚ)), ((0 : ℚ), (0 : ℚ)))] from rfl]
    rw [clip_passes]
    by_cases h0 : poly.isEmpty
    · rw [if_pos h0]
      exact List.isEmpty_iff.mp h0
    rw [if_neg h0]
    have hq1 := hpres poly hpoly ((0 : ℚ), (0 : ℚ)) ((10 : ℚ), (0 : ℚ))
    generalize hg1 : _clip_edge poly ((0 : ℚ), (0 : ℚ)) ((10 : ℚ), (0 : ℚ)) = q1 at hq1 ⊢
    rw [clip_passes]
    by_cases h1 : q1.isEmpty
    · rw [if_pos h1]
      exact List.isEmpty_iff.mp h1
    rw [if_neg h1]
    have hq2 := hpres q1 hq1 ((10 : ℚ), (0 : ℚ)) ((10 : ℚ), (10 : ℚ))
    generalize hg2 : _clip_edge q1 ((10 : ℚ), (0 : ℚ)) ((10 : ℚ), (10 : ℚ)) = q2 at hq2 ⊢
    rw [clip_passes]
    by_cases h2 : q2.isEmpty
    · rw [if_pos h2]
      exact List.isEmpty_iff.mp h2
    rw [if_neg h2]
    have hq3 := hpres q2 hq2 ((10 : ℚ), (10 : ℚ)) ((0 : ℚ), (10 : ℚ))
    generalize hg3 : _clip_edge q2 ((10 : ℚ), (10 : ℚ)) ((0 : ℚ), (10 : ℚ)) = q3 at hq3 ⊢
    rw [clip_passes]
    by_cases h3 : q3.isEmpty
    · rw [if_pos h3]
      exact List.isEmpty_iff.mp h3
    rw [if_neg h3]
    rw [clip_passes]
    apply _clip_edge_outside_empty
    intro v hv
    have hvx := hq3 v hv
    unfold sh_inside sh_cross
    simp only [decide_eq_false_iff_not, not_le]
    nlinarith

/-- Witness for C6 at an explicit all-negative-`x` triangle. -/
theorem sutherland_hodgman_square_and_outside_witness :
    clip_polygon ⟨0, 0, 10, 10⟩ [(-1, -1), (-3, -2), (-2, -4)] = [] :=
  sutherland_hodgman_square_and_outside.2 [(-1, -1), (-3, -2), (-2, -4)]
    (by norm_num)

/-! ### Midpoint ellipse algorithm (`midpoint_ellipse`, `filled_ellipse`,
lines 124-229) -/

/-- The 4 symmetric points plotted per step of `midpoint_ellipse`. -/
def plot_ellipse_points (xc yc x y : ℤ) : List (ℤ × ℤ) :=
  [(xc + x, yc + y), (xc - x, yc + y), (xc + x, yc - y), (xc - x, yc - y)]

/-- Region-1 loop of `midpoint_ellipse` (`while px < py`); returns the
plotted points together with the final `(x, y, px, py)` state that seeds
region 2.  The decision parameter `p1` is a float in Python (`0.25 * rx2`),
modelled exactly in `ℚ`. -/
def ellipseRegion1 (xc yc rx2 ry2 two_rx2 two_ry2 : ℤ) :
    ℕ → ℤ → ℤ → ℤ → ℤ → ℚ → List (ℤ × ℤ) × (ℤ × ℤ × ℤ × ℤ)
  | 0, x, y, px, py, _ => ([], (x, y, px, py))
  | fuel + 1, x, y, px, py, p1 =>
    if px < py then
      if p1 < 0 then
        let r := ellipseRegion1 xc yc rx2 ry2 two_rx2 two_ry2 fuel
          (x + 1) y (px + two_ry2) py (p1 + ((ry2 + (px + two_ry2) : ℤ) : ℚ))
        (plot_ellipse_points xc yc (x + 1) y ++ r.1, r.2)
      else
        let r := ellipseRegion1 xc yc rx2 ry2 two_rx2 two_ry2 fuel
          (x + 1) (y - 1) (px + two_ry2) (py - two_rx2)
          (p1 + ((ry2 + (px + two_ry2) - (py - two_rx2) : ℤ) : ℚ))
        (plot_ellipse_points xc yc (x + 1) (y - 1) ++ r.1, r.2)
    else ([], (x, y, px, py))

/-- Region-2 loop of `midpoint_ellipse` (`while y > 0`). -/
def ellipseRegion2 (xc yc rx2 ry2 two_rx2 two_ry2 : ℤ) :
    ℕ → ℤ → ℤ → ℤ → ℤ → ℚ → List (ℤ × ℤ)
  | 0, _, _, _, _, _ => []
  | fuel + 1, x, y, px, py, p2 =>
    if 0 < y then
      if 0 < p2 then
        plot_ellipse_points xc yc x (y - 1) ++
          ellipseRegion2 xc yc rx2 ry2 two_rx2 two_ry2 fuel x (y - 1) px
            (py - two_rx2) (p2 + ((rx2 - (py - two_rx2) : ℤ) : ℚ))
      else
        plot_ellipse_points xc yc (x + 1) (y - 1) ++
          ellipseRegion2 xc yc rx2 ry2 two_rx2 two_ry2 fuel (x + 1) (y - 1)
            (px + two_ry2) (py - two_rx2)
            (p2 + ((rx2 - (py - two_rx2) + (px + two_ry2) : ℤ) : ℚ))
    else []

/-- `midpoint_ellipse(xc, yc, rx, ry)` from `graphics_algorithms.py`. -/
def midpoint_ellipse (xc yc rx ry : ℤ) : List (ℤ × ℤ) :=
  let rx2 := rx * rx
  let ry2 := ry * ry
  let two_rx2 := 2 * rx2
  let two_ry2 := 2 * ry2
  let py0 := two_rx2 * ry
  let p1 : ℚ := (ry2 : ℚ) - ((rx2 * ry : ℤ) : ℚ) + (rx2 : ℚ) / 4
  let r1 := ellipseRegion1 xc yc rx2 ry2 two_rx2 two_ry2 (py0.toNat + 1) 0 ry 0 py0 p1
  let x := r1.2.1
  let y := r1.2.2.1
  let px := r1.2.2.2.1
  let py := r1.2.2.2.2
  let p2 : ℚ := (ry2 : ℚ) * ((x : ℚ) + 1 / 2) ^ 2 + (rx2 : ℚ) * ((y : ℚ) - 1) ^ 2
    - (rx2 : ℚ) * (ry2 : ℚ)
  plot_ellipse_points xc yc 0 ry ++ r1.1 ++
    ellipseRegion2 xc yc rx2 ry2 two_rx2 two_ry2 (y.toNat + 1) x y px py p2

/-- Region-1 loop of `filled_ellipse`: spans are drawn before the update. -/
def filledEllipseRegion1 (xc yc rx2 ry2 two_rx2 two_ry2 : ℤ) :
    ℕ → ℤ → ℤ → ℤ → ℤ → ℚ → List (ℤ × ℤ) × (ℤ × ℤ × ℤ × ℤ)
  | 0, x, y, px, py, _ => ([], (x, y, px, py))
  | fuel + 1, x, y, px, py, p1 =>
    if px < py then
      if p1 < 0 then
        let r := filledEllipseRegion1 xc yc rx2 ry2 two_rx2 two_ry2 fuel
          (x + 1) y (px + two_ry2) py (p1 + ((ry2 + (px + two_ry2) : ℤ) : ℚ))
        (draw_horizontal_line (xc - x) (xc + x) (yc + y) ++
          draw_horizontal_line (xc - x) (xc + x) (yc - y) ++ r.1, r.2)
      else
        let r := filledEllipseRegion1 xc yc rx2 ry2 two_rx2 two_ry2 fuel
          (x + 1) (y - 1) (px + two_ry2) (py - two_rx2)
          (p1 + ((ry2 + (px + two_ry2) - (py - two_rx2) : ℤ) : ℚ))
        (draw_horizontal_line (xc - x) (xc + x) (yc + y) ++
          draw_horizontal_line (xc - x) (xc + x) (yc - y) ++ r.1, r.2)
    else ([], (x, y, px, py))

/-- Region-2 loop of `filled_ellipse` (`while y >= 0`). -/
def filledEllipseRegion2 (xc yc rx2 ry2 two_rx2 two_ry2 : ℤ) :
    ℕ → ℤ → ℤ → ℤ → ℤ → ℚ → List (ℤ × ℤ)
  | 0, _, _, _, _, _ => []
  | fuel + 1, x, y, px, py, p2 =>
    if 0 ≤ y then
      draw_horizontal_line (xc - x) (xc + x) (yc + y) ++
      draw_horizontal_line (xc - x) (xc + x) (yc - y) ++
      (if 0 < p2 then
        filledEllipseRegion2 xc yc rx2 ry2 two_rx2 two_ry2 fuel x (y - 1) px
          (py - two_rx2) (p2 + ((rx2 - (py - two_rx2) : ℤ) : ℚ))
      else
        filledEllipseRegion2 xc yc rx2 ry2 two_rx2 two_ry2 fuel (x + 1) (y - 1)
          (px + two_ry2) (py - two_rx2)
          (p2 + ((rx2 - (py - two_rx2) + (px + two_ry2) : ℤ) : ℚ)))
    else []

/-- `filled_ellipse(xc, yc, rx, ry)`; `list(set(points))` is `dedup`. -/
def filled_ellipse (xc yc rx ry : ℤ) : List (ℤ × ℤ) :=
  let rx2 := rx * rx
  let ry2 := ry * ry
  let two_rx2 := 2 * rx2
  let two_ry2 := 2 * ry2
  let py0 := two_rx2 * ry
  let p1 : ℚ := (ry2 : ℚ) - ((rx2 * ry : ℤ) : ℚ) + (rx2 : ℚ) / 4
  let r1 := filledEllipseRegion1 xc yc rx2 ry2 two_rx2 two_ry2 (py0.toNat + 1) 0 ry 0 py0 p1
  let x := r1.2.1
  let y := r1.2.2.1
  let px := r1.2.2.2.1
  let py := r1.2.2.2.2
  let p2 : ℚ := (ry2 : ℚ) * ((x : ℚ) + 1 / 2) ^ 2 + (rx2 : ℚ) * ((y : ℚ) - 1) ^ 2
    - (rx2 : ℚ) * (ry2 : ℚ)
  (r1.1 ++
    filledEllipseRegion2 xc yc rx2 ry2 two_rx2 two_ry2 (y.toNat + 2) x y px py p2).dedup

lemma ellipseRegion1_exit {xc yc rx2 ry2 two_rx2 two_ry2 : ℤ} {fuel : ℕ}
    {x y px py : ℤ} {p1 : ℚ} (h : ¬ px < py) :
    ellipseRegion1 xc yc rx2 ry2 two_rx2 two_ry2 (fuel + 1) x y px py p1
      = ([], (x, y, px, py)) := by
  rw [ellipseRegion1, if_neg h]

lemma ellipseRegion2_exit {xc yc rx2 ry2 two_rx2 two_ry2 : ℤ} {fuel : ℕ}
    {x y px py : ℤ} {p2 : ℚ} (h : ¬ 0 < y) :
    ellipseRegion2 xc yc rx2 ry2 two_rx2 two_ry2 (fuel + 1) x y px py p2 = [] := by
  rw [ellipseRegion2, if_neg h]

lemma ellipseRegion2_step_pos {xc yc rx2 ry2 two_rx2 two_ry2 : ℤ} {fuel : ℕ}
    {x y px py : ℤ} {p2 : ℚ} (h : 0 < y) (hp : 0 < p2) :
    ellipseRegion2 xc yc rx2 ry2 two_rx2 two_ry2 (fuel + 1) x y px py p2
      = plot_ellipse_points xc yc x (y - 1) ++
          ellipseRegion2 xc yc rx2 ry2 two_rx2 two_ry2 fuel x (y - 1) px
            (py - two_rx2) (p2 + ((rx2 - (py - two_rx2) : ℤ) : ℚ)) := by
  rw [ellipseRegion2, if_pos h, if_pos hp]

lemma filledEllipseRegion1_exit {xc yc rx2 ry2 two_rx2 two_ry2 : ℤ} {fuel : ℕ}
    {x y px py : ℤ} {p1 : ℚ} (h : ¬ px < py) :
    filledEllipseRegion1 xc yc rx2 ry2 two_rx2 two_ry2 (fuel + 1) x y px py p1
      = ([], (x, y, px, py)) := by
  rw [filledEllipseRegion1, if_neg h]

lemma filledEllipseRegion2_exit {xc yc rx2 ry2 two_rx2 two_ry2 : ℤ} {fuel : ℕ}
    {x y px py : ℤ} {p2 : ℚ} (h : ¬ 0 ≤ y) :
    filledEllipseRegion2 xc yc rx2 ry2 two_rx2 two_ry2 (fuel + 1) x y px py p2 = [] := by
  rw [filledEllipseRegion2, if_neg h]

lemma filledEllipseRegion2_step {xc yc rx2 ry2 two_rx2 two_ry2 : ℤ} {fuel : ℕ}
    {x y px py : ℤ} {p2 : ℚ} (h : 0 ≤ y) :
    filledEllipseRegion2 xc yc rx2 ry2 two_rx2 two_ry2 (fuel + 1) x y px py p2
      = draw_horizontal_line (xc - x) (xc + x) (yc + y) ++
        draw_horizontal_line (xc - x) (xc + x) (yc - y) ++
        (if 0 < p2 then
          filledEllipseRegion2 xc yc rx2 ry2 two_rx2 two_ry2 fuel x (y - 1) px
            (py - two_rx2) (p2 + ((rx2 - (py - two_rx2) : ℤ) : ℚ))
        else
          filledEllipseRegion2 xc yc rx2 ry2 two_rx2 two_ry2 fuel (x + 1) (y - 1)
            (px + two_ry2) (py - two_rx2)
            (p2 + ((rx2 - (py - two_rx2) + (px + two_ry2) : ℤ) : ℚ))) := by
  rw [filledEllipseRegion2, if_pos h]

/-- With `rx = 0` the region-2 loop of the ellipse stroke walks `y` from its
start down to `1`, plotting only the two points `(xc, yc ± (y-1))` each
iteration (`x`, `px`, `py` and `p2` never change). -/
lemma ellipseRegion2_vertical (xc yc ry2 two_ry2 : ℤ) :
    ∀ (n : ℕ) (y : ℤ), y.toNat = n → ∀ (p2 : ℚ), 0 < p2 →
      ∀ q : ℤ × ℤ,
        q ∈ ellipseRegion2 xc yc 0 ry2 0 two_ry2 (n + 1) 0 y 0 0 p2 ↔
          ∃ t : ℤ, 0 ≤ t ∧ t ≤ y - 1 ∧ (q = (xc, yc + t) ∨ q = (xc, yc - t)) := by
  intro n
  induction n with
  | zero =>
      intro y hy p2 hp2 q
      rw [ellipseRegion2_exit (by omega)]
      simp only [List.not_mem_nil, false_iff, not_exists]
      intro t
      rintro ⟨ht0, ht1, -⟩
      omega
  | succ n ih =>
      intro y hy p2 hp2 q
      have hy0 : 0 < y := by omega
      rw [ellipseRegion2_step_pos hy0 hp2]
      simp only [sub_zero, Int.cast_zero, add_zero]
      rw [List.mem_append, ih (y - 1) (by omega) p2 hp2 q]
      simp only [plot_ellipse_points, add_zero, sub_zero, List.mem_cons,
        List.not_mem_nil, or_false]
      constructor
      · rintro ((hq | hq | hq | hq) | ⟨t, ht0, ht1, hq⟩)
        · exact ⟨y - 1, by omega, by omega, Or.inl hq⟩
        · exact ⟨y - 1, by omega, by omega, Or.inl hq⟩
        · exact ⟨y - 1, by omega, by omega, Or.inr hq⟩
        · exact ⟨y - 1, by omega, by omega, Or.inr hq⟩
        · exact ⟨t, ht0, by omega, hq⟩
      · rintro ⟨t, ht0, ht1, hq⟩
        by_cases hty : t = y - 1
        · subst hty
          rcases hq with hq | hq
          · exact Or.inl (Or.inl hq)
          · exact Or.inl (Or.inr (Or.inr (Or.inl hq)))
        · exact Or.inr ⟨t, ht0, by omega, hq⟩

/-- With `rx = 0` the region-2 loop of the filled ellipse emits exactly the
two span points `(xc, yc ± y)` per iteration while walking `y` down to `0`. -/
lemma filledEllipseRegion2_vertical (xc yc ry2 two_ry2 : ℤ) :
    ∀ (n : ℕ) (y : ℤ), y.toNat = n → 0 ≤ y → ∀ (p2 : ℚ), 0 < p2 →
      ∀ q : ℤ × ℤ,
        q ∈ filledEllipseRegion2 xc yc 0 ry2 0 two_ry2 (n + 2) 0 y 0 0 p2 ↔
          ∃ t : ℤ, 0 ≤ t ∧ t ≤ y ∧ (q = (xc, yc + t) ∨ q = (xc, yc - t)) := by
  intro n
  induction n with
  | zero =>
      intro y hy hy0 p2 hp2 q
      have hyz : y = 0 := by omega
      subst hyz
      rw [show (0 : ℕ) + 2 = (0 + 1) + 1 from rfl]
      rw [filledEllipseRegion2_step (le_refl 0)]
      rw [if_pos hp2]
      rw [filledEllipseRegion2_exit (by omega)]
      simp only [add_zero, sub_zero, draw_horizontal_line_self, List.append_nil,
        List.mem_append, List.mem_singleton]
      constructor
      · rintro (hq | hq)
        · exact ⟨0, le_refl 0, le_refl 0, Or.inl (by simpa using hq)⟩
        · exact ⟨0, le_refl 0, le_refl 0, Or.inl (by simpa using hq)⟩
      · rintro ⟨t, ht0, ht1, hq⟩
        have htz : t = 0 := by omega
        subst htz
        rcases hq with hq | hq
        · exact Or.inl (by simpa using hq)
        · exact Or.inl (by simpa using hq)
  | succ n ih =>
      intro y hy hy0 p2 hp2 q
      have hy1 : 1 ≤ y := by omega
      rw [show n + 1 + 2 = (n + 2) + 1 from rfl]
      rw [filledEllipseRegion2_step (by omega)]
      rw [if_pos hp2]
      simp only [sub_zero, Int.cast_zero, add_zero]
      rw [List.mem_append, List.mem_append, ih (y - 1) (by omega) (by omega) p2 hp2 q]
      simp only [draw_horizontal_line_self, List.mem_singleton]
      constructor
      · rintro ((hq | hq) | ⟨t, ht0, ht1, hq⟩)
        · exact ⟨y, by omega, le_refl y, Or.inl hq⟩
        · exact ⟨y, by omega, le_refl y, Or.inr hq⟩
        · exact ⟨t, ht0, by omega, hq⟩
      · rintro ⟨t, ht0, ht1, hq⟩
        by_cases hty : t = y
        · subst hty
          rcases hq with hq | hq
          · exact Or.inl (Or.inl hq)
          · exact Or.inl (Or.inr hq)
        · exact Or.inr ⟨t, ht0, by omega, hq⟩

lemma midpoint_ellipse_rx0 (xc yc ry : ℤ) (hry : 0 < ry) (q : ℤ × ℤ) :
    q ∈ midpoint_ellipse xc yc 0 ry ↔
      ∃ t : ℤ, -ry ≤ t ∧ t ≤ ry ∧ q = (xc, yc + t) := by
  unfold midpoint_ellipse
  simp only [mul_zero, zero_mul, Int.toNat_zero, Int.cast_zero, zero_div,
    sub_zero, add_zero]
  rw [ellipseRegion1_exit (show ¬ (0 : ℤ) < 0 from by omega)]
  simp only [List.append_nil]
  have hp2 : (0 : ℚ) < ((ry * ry : ℤ) : ℚ) * (((0 : ℤ) : ℚ) + 1 / 2) ^ 2 := by
    have h1 : (0 : ℚ) < ((ry * ry : ℤ) : ℚ) := by exact_mod_cast mul_pos hry hry
    have h2 : ((((0 : ℤ) : ℚ)) + 1 / 2) ^ 2 = 1 / 4 := by norm_num
    nlinarith
  rw [List.mem_append,
    ellipseRegion2_vertical xc yc (ry * ry) (2 * (ry * ry)) ry.toNat ry rfl _ hp2 q]
  simp only [plot_ellipse_points, add_zero, sub_zero, List.mem_cons,
    List.not_mem_nil, or_false, or_self, or_self_left]
  constructor
  · rintro ((hq | hq) | ⟨t, ht0, ht1, hq | hq⟩)
    · exact ⟨ry, by omega, by omega, hq⟩
    · exact ⟨-ry, by omega, by omega, by rw [hq, sub_eq_add_neg]⟩
    · exact ⟨t, by omega, by omega, hq⟩
    · exact ⟨-t, by omega, by omega, by rw [hq, sub_eq_add_neg]⟩
  · rintro ⟨t, ht0, ht1, hq⟩
    by_cases hc1 : t = ry
    · subst hc1
      exact Or.inl (Or.inl hq)
    by_cases hc2 : t = -ry
    · subst hc2
      refine Or.inl (Or.inr ?_)
      rw [hq]
      simp only [Prod.mk.injEq]
      exact ⟨trivial, by ring⟩
    by_cases hc3 : 0 ≤ t
    · exact Or.inr ⟨t, hc3, by omega, Or.inl hq⟩
    · refine Or.inr ⟨-t, by omega, by omega, Or.inr ?_⟩
      rw [hq]
      simp only [Prod.mk.injEq]
      exact ⟨trivial, by ring⟩

lemma filled_ellipse_rx0 (xc yc ry : ℤ) (hry : 0 < ry) (q : ℤ × ℤ) :
    q ∈ filled_ellipse xc yc 0 ry ↔
      ∃ t : ℤ, -ry ≤ t ∧ t ≤ ry ∧ q = (xc, yc + t) := by
  unfold filled_ellipse
  simp only [mul_zero, zero_mul, Int.toNat_zero, Int.cast_zero, zero_div,
    sub_zero, add_zero]
  rw [filledEllipseRegion1_exit (show ¬ (0 : ℤ) < 0 from by omega)]
  simp only [List.nil_append]
  have hp2 : (0 : ℚ) < ((ry * ry : ℤ) : ℚ) * (((0 : ℤ) : ℚ) + 1 / 2) ^ 2 := by
    have h1 : (0 : ℚ) < ((ry * ry : ℤ) : ℚ) := by exact_mod_cast mul_pos hry hry
    have h2 : ((((0 : ℤ) : ℚ)) + 1 / 2) ^ 2 = 1 / 4 := by norm_num
    nlinarith
  rw [List.mem_dedup,
    filledEllipseRegion2_vertical xc yc (ry * ry) (2 * (ry * ry)) ry.toNat ry rfl
      (by omega) _ hp2 q]
  constructor
  · rintro ⟨t, ht0, ht1, hq | hq⟩
    · exact ⟨t, by omega, by omega, hq⟩
    · exact ⟨-t, by omega, by omega, by rw [hq, sub_eq_add_neg]⟩
  · rintro ⟨t, ht0, ht1, hq⟩
    by_cases hc : 0 ≤ t
    · exact ⟨t, hc, by omega, Or.inl hq⟩
    · refine ⟨-t, by omega, by omega, Or.inr ?_⟩
      rw [hq]
      simp only [Prod.mk.injEq]
      exact ⟨trivial, by ring⟩

lemma midpoint_ellipse_ry0 (xc yc rx : ℤ) (q : ℤ × ℤ) :
    q ∈ midpoint_ellipse xc yc rx 0 ↔ q = (xc, yc) := by
  unfold midpoint_ellipse
  simp only [mul_zero, zero_mul, Int.toNat_zero]
  rw [ellipseRegion1_exit (show ¬ (0 : ℤ) < 0 from by omega)]
  rw [ellipseRegion2_exit (show ¬ (0 : ℤ) < 0 from by omega)]
  simp [plot_ellipse_points]

lemma filled_ellipse_ry0 (xc yc rx : ℤ) (q : ℤ × ℤ) :
    q ∈ filled_ellipse xc yc rx 0 ↔ q = (xc, yc) := by
  unfold filled_ellipse
  simp only [mul_zero, zero_mul, Int.toNat_zero]
  rw [filledEllipseRegion1_exit (show ¬ (0 : ℤ) < 0 from by omega)]
  simp only [List.nil_append, Int.toNat_zero, Int.cast_zero]
  rw [List.mem_dedup]
  rw [show (0 : ℕ) + 2 = (0 + 1) + 1 from rfl]
  rw [filledEllipseRegion2_step (le_refl 0)]
  have hrec : ∀ (x px py : ℤ) (p2 : ℚ),
      filledEllipseRegion2 xc yc (rx * rx) 0 (2 * (rx * rx)) 0 (0 + 1) x (0 - 1)
        px py p2 = [] :=
    fun x px py p2 => filledEllipseRegion2_exit (by omega)
  rw [hrec, hrec, ite_self]
  simp [draw_horizontal_line_self]

/-- C7: corrected.  When `rx = 0` and `ry > 0`, `midpoint_ellipse` and
`filled_ellipse` do collapse (as a set) to the vertical segment from
`(xc, yc - ry)` to `(xc, yc + ry)`, and when both axes are zero they yield
the single centre point; but when `ry = 0` and `rx > 0` both functions
return only the centre point `(xc, yc)`, NOT the horizontal segment claimed
by the spec (region 1 and region 2 both exit immediately since
`py = 2*rx2*ry = 0` and `y = 0`).  No input fails. -/
theorem ellipse_degenerate_axes (xc yc rx ry : ℤ) :
    (rx = 0 → 0 < ry →
      ∀ q : ℤ × ℤ,
        (q ∈ midpoint_ellipse xc yc rx ry ↔
          ∃ t : ℤ, -ry ≤ t ∧ t ≤ ry ∧ q = (xc, yc + t)) ∧
        (q ∈ filled_ellipse xc yc rx ry ↔
          ∃ t : ℤ, -ry ≤ t ∧ t ≤ ry ∧ q = (xc, yc + t))) ∧
    (ry = 0 →
      ∀ q : ℤ × ℤ,
        (q ∈ midpoint_ellipse xc yc rx ry ↔ q = (xc, yc)) ∧
        (q ∈ filled_ellipse xc yc rx ry ↔ q = (xc, yc))) := by
  constructor
  · rintro rfl hry q
    exact ⟨midpoint_ellipse_rx0 xc yc ry hry q, filled_ellipse_rx0 xc yc ry hry q⟩
  · rintro rfl q
    exact ⟨midpoint_ellipse_ry0 xc yc rx q, filled_ellipse_ry0 xc yc rx q⟩

/-- C7 counterexample: with `ry = 0` and `rx = 2 > 0` the claim requires the
horizontal segment point `(1, 0)` to be produced, but `midpoint_ellipse`
only emits the centre. -/
theorem midpoint_ellipse_ry0_not_segment :
    ((1 : ℤ), (0 : ℤ)) ∉ midpoint_ellipse 0 0 2 0 := by
  intro h
  have h2 := (midpoint_ellipse_ry0 0 0 2 ((1 : ℤ), (0 : ℤ))).mp h
  simp at h2

/-- C7 witness: the vertical collapse at `(0,0,0,2)` contains `(0,1)` and the
`ry = 0` collapse at centre `(5,5)` contains the centre. -/
theorem ellipse_degenerate_axes_witness :
    ((0 : ℤ), (1 : ℤ)) ∈ midpoint_ellipse 0 0 0 2 ∧
      ((5 : ℤ), (5 : ℤ)) ∈ filled_ellipse 5 5 3 0 :=
  ⟨((ellipse_degenerate_axes 0 0 0 2).1 rfl (by norm_num) ((0 : ℤ), (1 : ℤ))).1.mpr
      ⟨1, by norm_num, by norm_num, rfl⟩,
    ((ellipse_degenerate_axes 5 5 3 0).2 rfl ((5 : ℤ), (5 : ℤ))).2.mpr rfl⟩

/-! ### Scanline polygon fill (`filled_polygon`, lines 549-586) -/

/-- Truncation toward zero of a rational, Python `int(...)`. -/
def ratTrunc (q : ℚ) : ℤ := q.num.tdiv (q.den : ℤ)

/-- Consecutive disjoint pairs `(l[0],l[1]), (l[2],l[3]), ...` of a list,
Python `for i in range(0, len(l) - 1, 2)` over the sorted intersections. -/
def spanPairs : List ℚ → List (ℚ × ℚ)
  | a :: b :: rest => (a, b) :: spanPairs rest
  | _ => []

/-- `filled_polygon(vertices)` from `graphics_algorithms.py` (scanline fill).
Python sorts the intersection list in place; on a list of rationals every
comparison sort computes the same output, modelled here by insertion sort. -/
def filled_polygon (vertices : List (ℚ × ℚ)) : List (ℤ × ℤ) :=
  if vertices.length < 3 then []
  else
    let ys := vertices.map Prod.snd
    let min_y := ratTrunc (ys.foldl min (ys.headD 0))
    let max_y := ratTrunc (ys.foldl max (ys.headD 0))
    (List.range (max_y + 1 - min_y).toNat).flatMap (fun k =>
      let y : ℤ := min_y + (k : ℤ)
      let intersections := (vertices.zip (vertices.rotate 1)).filterMap
        (fun e =>
          if e.1.2 = e.2.2 then none
          else if min e.1.2 e.2.2 ≤ (y : ℚ) ∧ (y : ℚ) < max e.1.2 e.2.2 then
            some (e.1.1 + ((y : ℚ) - e.1.2) * (e.2.1 - e.1.1) / (e.2.2 - e.1.2))
          else none)
      (spanPairs (intersections.insertionSort (· ≤ ·))).flatMap
        (fun pr =>
          (List.range ((ratTrunc pr.2) + 1 - ratTrunc pr.1).toNat).map
            (fun j => (ratTrunc pr.1 + (j : ℤ), y))))

lemma filled_polygon_square_eval :
    filled_polygon [(0, 0), (10, 0), (10, 10), (0, 10)] =
      (List.range 10).flatMap
        (fun r : ℕ => (List.range 11).map (fun c : ℕ => ((c : ℤ), (r : ℤ)))) := by
  norm_num [filled_polygon, ratTrunc, spanPairs, List.rotate, List.flatMap,
    min_def, max_def, List.insertionSort, List.orderedInsert,
    Rat.num_ofNat, Rat.den_ofNat, Int.tdiv_one,
    (by decide : ((11 : ℤ).toNat = (11 : ℕ))),
    (by decide : List.range 11 = [0, 1, 2, 3, 4, 5, 6, 7, 8, 9, 10]),
    (by decide : List.range 10 = [0, 1, 2, 3, 4, 5, 6, 7, 8, 9])]

/-- C2 counterexample: the top-row point `(0, 10)` of the claimed 121-point
set is not produced by `filled_polygon` on the square: at `y = 10` the
strict scanline test `min(y1,y2) <= y < max(y1,y2)` rejects both vertical
edges, so that row has no intersections. -/
theorem filled_polygon_square_missing_top_row :
    ((0 : ℤ), (10 : ℤ)) ∉ filled_polygon [(0, 0), (10, 0), (10, 10), (0, 10)] := by
  rw [filled_polygon_square_eval]
  decide

/-- C2: corrected.  `filled_polygon` on the square
`(0,0),(10,0),(10,10),(0,10)` returns, as a set, exactly the 110 points
`{0..10} × {0..9}` — the top row `y = 10` of the claimed 121-point set
`{0..10} × {0..10}` is missing, because the scanline condition
`min(y1,y2) <= y < max(y1,y2)` is strict at the maximum `y`. -/
theorem filled_polygon_square_spec (p : ℤ × ℤ) :
    p ∈ filled_polygon [(0, 0), (10, 0), (10, 10), (0, 10)] ↔
      0 ≤ p.1 ∧ p.1 ≤ 10 ∧ 0 ≤ p.2 ∧ p.2 ≤ 9 := by
  rw [filled_polygon_square_eval]
  constructor
  · intro h
    rcases List.mem_flatMap.mp h with ⟨r, hr, hm⟩
    rcases List.mem_map.mp hm with ⟨c, hc, he⟩
    rw [List.mem_range] at hr
    rw [List.mem_range] at hc
    subst he
    refine ⟨?_, ?_, ?_, ?_⟩ <;> simp <;> omega
  · rintro ⟨h0, h1, h2, h3⟩
    refine List.mem_flatMap.mpr
      ⟨p.2.toNat, List.mem_range.mpr (by omega),
        List.mem_map.mpr ⟨p.1.toNat, List.mem_range.mpr (by omega), ?_⟩⟩
    have hx : ((p.1.toNat : ℕ) : ℤ) = p.1 := by omega
    have hy : ((p.2.toNat : ℕ) : ℤ) = p.2 := by omega
    rw [hx, hy]
